import Mathlib

/-!
# Verification of the `cookies` repository codecs

This file is a shallow embedding, in Lean 4, of the three codec/cipher
components of the `creachadair/cookies` repository:

* `bincookie` — the Apple binary cookie container codec
  (`src/bincookie/bincookie.go`);
* `chromedb`'s value cipher — the "v10" AES-128-CBC cookie-value scheme
  (`src/chromedb/crypt.go`);
* `bplist` — the binary property-list visitor parser
  (`src/unnamed/part_004`, package `bplist`).

Modelling conventions:

* Go `[]byte` values are `List Nat`; well-formedness predicates record the
  byte range where a claim needs it.
* Go machine integers are `Nat`/`Int` with explicit `% 2^32` / `% 2^64`
  wrapping at exactly the places the Go code performs fixed-width
  arithmetic (`uint32`, `int64`, `int` on a 64-bit target).
* Fallible Go functions land in `PRes`, which distinguishes an ordinary
  returned `error` (`.ferr`) from a Go runtime panic (`.panics`), so that
  "returns an error" and "crashes" are different observable outcomes.
* `float64` values are represented by their IEEE-754 bit patterns; the only
  conversions the sources perform on floats (`float64(int64)` and
  `int64(float64)`) are embedded bit-exactly by `f64bitsOfInt` /
  `f64truncToInt` below.
* The AES-128 block cipher lives in the Go standard library, outside this
  repository; the cipher theorems are parametrized by an arbitrary pair of
  mutually inverse, length-preserving 16-byte block maps, which is the
  interface `crypto/aes` provides for each 16-byte key.
* Error and panic message strings are stable abbreviations of the Go
  messages (formatted details such as positions or the offending tag byte
  are dropped); no claim depends on message text, only on the
  ok/error/panic classification.
-/

set_option maxRecDepth 2000

namespace CookiesVerif

/-- Outcome of a fallible Go computation: a returned value, a returned
`error` (for these claims: `FormatError`/`CryptoError`), or a runtime
panic. -/
inductive PRes (α : Type) where
  | ok (val : α)
  | ferr (msg : String)
  | panics (msg : String)
deriving DecidableEq, Repr

/-- Sequencing of fallible computations (error and panic short-circuit). -/
def PRes.bind {α β : Type} : PRes α → (α → PRes β) → PRes β
  | .ok a, k => k a
  | .ferr m, _ => .ferr m
  | .panics m, _ => .panics m

@[simp] theorem PRes.bind_ok {α β : Type} (a : α) (k : α → PRes β) :
    (PRes.ok a).bind k = k a := rfl

@[simp] theorem PRes.bind_ferr {α β : Type} (m : String) (k : α → PRes β) :
    (PRes.ferr m).bind k = PRes.ferr (α := β) m := rfl

@[simp] theorem PRes.bind_panics {α β : Type} (m : String) (k : α → PRes β) :
    (PRes.panics m).bind k = PRes.panics (α := β) m := rfl

/-! ## Byte-level primitives

`byteAt d i` is Go's `data[i]` on an in-bounds index (readers guard the
bounds, exactly as the Go helpers do). `le32`/`be32`/`le64` are the byte
encodings produced by `encoding/binary`; writing `uint32(v)` for a wider
`v` truncates, which the `% 256` digits reproduce. -/

def byteAt (d : List Nat) (i : Nat) : Nat := d.getD i 0

/-- `binary.LittleEndian.PutUint32`. -/
def le32 (v : Nat) : List Nat :=
  [v % 256, v / 256 % 256, v / 65536 % 256, v / 16777216 % 256]

/-- `binary.BigEndian.PutUint32`. -/
def be32 (v : Nat) : List Nat :=
  [v / 16777216 % 256, v / 65536 % 256, v / 256 % 256, v % 256]

/-- `binary.LittleEndian.PutUint64`. -/
def le64 (v : Nat) : List Nat :=
  [v % 256, v / 256 % 256, v / 65536 % 256, v / 16777216 % 256,
   v / 4294967296 % 256, v / 1099511627776 % 256,
   v / 281474976710656 % 256, v / 72057594037927936 % 256]

/-- `littleUint32(data, pos)` from `bincookie.go`. -/
def leU32 (d : List Nat) (pos : Nat) : PRes Nat :=
  if pos + 4 ≤ d.length then
    .ok (byteAt d pos + 256 * byteAt d (pos + 1) + 65536 * byteAt d (pos + 2)
         + 16777216 * byteAt d (pos + 3))
  else .ferr "incomplete uint32"

/-- `bigUint32(data, pos)` from `bincookie.go`. -/
def beU32 (d : List Nat) (pos : Nat) : PRes Nat :=
  if pos + 4 ≤ d.length then
    .ok (16777216 * byteAt d pos + 65536 * byteAt d (pos + 1)
         + 256 * byteAt d (pos + 2) + byteAt d (pos + 3))
  else .ferr "incomplete uint32"

/-- The 8-byte little-endian read inside `littleFloat64` (the result is the
IEEE-754 bit pattern of the float). -/
def leU64 (d : List Nat) (pos : Nat) : PRes Nat :=
  if pos + 8 ≤ d.length then
    .ok (byteAt d pos + 256 * byteAt d (pos + 1) + 65536 * byteAt d (pos + 2)
         + 16777216 * byteAt d (pos + 3) + 4294967296 * byteAt d (pos + 4)
         + 1099511627776 * byteAt d (pos + 5)
         + 281474976710656 * byteAt d (pos + 6)
         + 72057594037927936 * byteAt d (pos + 7))
  else .ferr "incomplete int64"

@[simp] theorem le32_length (v : Nat) : (le32 v).length = 4 := rfl

@[simp] theorem be32_length (v : Nat) : (be32 v).length = 4 := rfl

@[simp] theorem le64_length (v : Nat) : (le64 v).length = 8 := rfl

@[simp] theorem byteAt_cons_zero (a : Nat) (l : List Nat) :
    byteAt (a :: l) 0 = a := rfl

@[simp] theorem byteAt_cons_succ (a : Nat) (l : List Nat) (n : Nat) :
    byteAt (a :: l) (n + 1) = byteAt l n := rfl

theorem byteAt_append_right (xs ys : List Nat) (i : Nat) :
    byteAt (xs ++ ys) (xs.length + i) = byteAt ys i := by
  induction xs with
  | nil => simp [byteAt]
  | cons a xs ih =>
      simpa [List.cons_append, Nat.succ_add] using ih

/-- Reading past a prefix is reading in the suffix. -/
theorem leU32_append (xs ys : List Nat) (pos : Nat) :
    leU32 (xs ++ ys) (xs.length + pos) = leU32 ys pos := by
  unfold leU32
  have h1 : xs.length + pos + 1 = xs.length + (pos + 1) := by omega
  have h2 : xs.length + pos + 2 = xs.length + (pos + 2) := by omega
  have h3 : xs.length + pos + 3 = xs.length + (pos + 3) := by omega
  rw [h1, h2, h3, byteAt_append_right, byteAt_append_right,
      byteAt_append_right, byteAt_append_right]
  simp only [List.length_append]
  by_cases h : pos + 4 ≤ ys.length
  · rw [if_pos h, if_pos (by omega)]
  · rw [if_neg h, if_neg (by omega)]

theorem beU32_append (xs ys : List Nat) (pos : Nat) :
    beU32 (xs ++ ys) (xs.length + pos) = beU32 ys pos := by
  unfold beU32
  have h1 : xs.length + pos + 1 = xs.length + (pos + 1) := by omega
  have h2 : xs.length + pos + 2 = xs.length + (pos + 2) := by omega
  have h3 : xs.length + pos + 3 = xs.length + (pos + 3) := by omega
  rw [h1, h2, h3, byteAt_append_right, byteAt_append_right,
      byteAt_append_right, byteAt_append_right]
  simp only [List.length_append]
  by_cases h : pos + 4 ≤ ys.length
  · rw [if_pos h, if_pos (by omega)]
  · rw [if_neg h, if_neg (by omega)]

theorem leU64_append (xs ys : List Nat) (pos : Nat) :
    leU64 (xs ++ ys) (xs.length + pos) = leU64 ys pos := by
  unfold leU64
  have h1 : xs.length + pos + 1 = xs.length + (pos + 1) := by omega
  have h2 : xs.length + pos + 2 = xs.length + (pos + 2) := by omega
  have h3 : xs.length + pos + 3 = xs.length + (pos + 3) := by omega
  have h4 : xs.length + pos + 4 = xs.length + (pos + 4) := by omega
  have h5 : xs.length + pos + 5 = xs.length + (pos + 5) := by omega
  have h6 : xs.length + pos + 6 = xs.length + (pos + 6) := by omega
  have h7 : xs.length + pos + 7 = xs.length + (pos + 7) := by omega
  rw [h1, h2, h3, h4, h5, h6, h7, byteAt_append_right, byteAt_append_right,
      byteAt_append_right, byteAt_append_right, byteAt_append_right,
      byteAt_append_right, byteAt_append_right, byteAt_append_right]
  simp only [List.length_append]
  by_cases h : pos + 8 ≤ ys.length
  · rw [if_pos h, if_pos (by omega)]
  · rw [if_neg h, if_neg (by omega)]

theorem leU32_le32 (v : Nat) (rest : List Nat) :
    leU32 (le32 v ++ rest) 0 = .ok (v % 4294967296) := by
  simp only [leU32, le32, List.cons_append, List.nil_append, byteAt_cons_zero,
    byteAt_cons_succ, List.length_cons, List.length_append]
  rw [if_pos (by omega)]
  congr 1
  omega

theorem beU32_be32 (v : Nat) (rest : List Nat) :
    beU32 (be32 v ++ rest) 0 = .ok (v % 4294967296) := by
  simp only [beU32, be32, List.cons_append, List.nil_append, byteAt_cons_zero,
    byteAt_cons_succ, List.length_cons, List.length_append]
  rw [if_pos (by omega)]
  congr 1
  omega

theorem leU64_le64 (v : Nat) (rest : List Nat) :
    leU64 (le64 v ++ rest) 0 = .ok (v % 18446744073709551616) := by
  simp only [leU64, le64, List.cons_append, List.nil_append, byteAt_cons_zero,
    byteAt_cons_succ, List.length_cons, List.length_append]
  rw [if_pos (by omega)]
  congr 1
  omega

/-! ## Fixed-width integer helpers -/

/-- Go `int64` two's-complement wrapping of an unbounded integer. -/
def wrapInt64 (x : Int) : Int :=
  (x + 9223372036854775808) % 18446744073709551616 - 9223372036854775808

theorem wrapInt64_eq_self (x : Int) (h1 : -9223372036854775808 ≤ x)
    (h2 : x < 9223372036854775808) : wrapInt64 x = x := by
  unfold wrapInt64
  omega

/-! ## IEEE-754 binary64 on integers

The sources convert between `int64` and `float64` (`float64(n)` rounds to
nearest, ties to even; `int64(f)` truncates toward zero, with the amd64
"integer indefinite" value `-2^63` on NaN/overflow). `f64bitsOfInt` is the
bit pattern of `float64(v)` for an `int64` input `v`; `f64truncToInt` is
`int64(math.Float64frombits(bits))`. -/

/-- Number of bits of `n` (`0` for `0`), fuelled so that it is structural;
the fuel `64` covers every value the embedding feeds it. -/
def bitLenAux : Nat → Nat → Nat
  | 0, _ => 0
  | fuel + 1, n => if n = 0 then 0 else 1 + bitLenAux fuel (n / 2)

def bitLen (n : Nat) : Nat := bitLenAux 64 n

theorem bitLenAux_zero (fuel : Nat) : bitLenAux fuel 0 = 0 := by
  cases fuel <;> simp [bitLenAux]

theorem bitLenAux_spec (fuel : Nat) : ∀ n : Nat, n < 2 ^ fuel → 0 < n →
    2 ^ (bitLenAux fuel n - 1) ≤ n ∧ n < 2 ^ bitLenAux fuel n := by
  induction fuel with
  | zero => intro n h1 h2; omega
  | succ fuel ih =>
      intro n h1 h2
      rw [bitLenAux, if_neg (by omega)]
      by_cases hn : n = 1
      · subst hn
        norm_num [bitLenAux_zero]
      · have hhalf : 0 < n / 2 := by omega
        have hlt : n / 2 < 2 ^ fuel := by
          have : n < 2 * 2 ^ fuel := by
            simpa [Nat.pow_succ, Nat.mul_comm] using h1
          omega
        obtain ⟨hle, hgt⟩ := ih (n / 2) hlt hhalf
        have hfpos : 0 < bitLenAux fuel (n / 2) := by
          by_contra hc
          have : bitLenAux fuel (n / 2) = 0 := by omega
          rw [this] at hgt
          omega
        constructor
        · have : 1 + bitLenAux fuel (n / 2) - 1 = bitLenAux fuel (n / 2) := by
            omega
          rw [this]
          calc 2 ^ bitLenAux fuel (n / 2)
              = 2 * 2 ^ (bitLenAux fuel (n / 2) - 1) := by
                rw [← Nat.pow_succ']
                congr 1
                omega
            _ ≤ 2 * (n / 2) := by omega
            _ ≤ n := by omega
        · have hps : 2 ^ (1 + bitLenAux fuel (n / 2)) =
              2 * 2 ^ bitLenAux fuel (n / 2) := by
            rw [Nat.pow_add, Nat.pow_one]
          rw [hps]
          omega

theorem bitLen_spec (n : Nat) (h1 : n < 18446744073709551616) (h2 : 0 < n) :
    2 ^ (bitLen n - 1) ≤ n ∧ n < 2 ^ bitLen n := by
  apply bitLenAux_spec 64 n _ h2
  have hp : (2 : Nat) ^ 64 = 18446744073709551616 := by norm_num
  omega

/-- The packed bit layout `sign * 2^63 + exponent * 2^52 + mantissa`. -/
def f64pack (s e m : Nat) : Nat :=
  s * 9223372036854775808 + e * 4503599627370496 + m

/-- Bits of `float64(v)` for an `int64` value `v` (round to nearest, ties
to even; exact whenever `|v| < 2^53`). -/
def f64bitsOfInt (v : Int) : Nat :=
  if v = 0 then 0
  else
    let s : Nat := if v < 0 then 1 else 0
    let a : Nat := v.natAbs
    let e : Nat := bitLen a - 1
    if e ≤ 52 then
      f64pack s (e + 1023) (a * 2 ^ (52 - e) - 4503599627370496)
    else
      let q := a / 2 ^ (e - 52)
      let r := a % 2 ^ (e - 52)
      let half := 2 ^ (e - 53)
      let q2 := if half < r ∨ (r = half ∧ q % 2 = 1) then q + 1 else q
      if q2 = 9007199254740992 then f64pack s (e + 1024) 0
      else f64pack s (e + 1023) (q2 - 4503599627370496)

/-- Truncated-toward-zero magnitude `⌊|value|⌋` of a finite float with
biased exponent `e` and mantissa field `m`. -/
def f64mag (e m : Nat) : Nat :=
  if e = 0 then 0
  else if 1075 ≤ e then (4503599627370496 + m) * 2 ^ (e - 1075)
  else (4503599627370496 + m) / 2 ^ (1075 - e)

/-- Apply the sign bit and the amd64 out-of-range clamp of a
float-to-`int64` conversion (`t < -2^63 ∨ t ≥ 2^63` collapses to the
integer-indefinite value `-2^63`). -/
def f64signClamp (s mag : Nat) : Int :=
  if s = 1 then
    if (9223372036854775808 : Int) < (mag : Int) then -9223372036854775808
    else -(mag : Int)
  else
    if (9223372036854775808 : Int) ≤ (mag : Int) then -9223372036854775808
    else (mag : Int)

/-- `int64(math.Float64frombits(bits))`: truncation toward zero, with the
amd64 integer-indefinite result `-2^63` for NaN/±Inf/out-of-range. -/
def f64truncToInt (bits : Nat) : Int :=
  if bits % 18446744073709551616 / 4503599627370496 % 2048 = 2047 then
    -9223372036854775808
  else
    f64signClamp (bits % 18446744073709551616 / 9223372036854775808)
      (f64mag (bits % 18446744073709551616 / 4503599627370496 % 2048)
        (bits % 18446744073709551616 % 4503599627370496))

theorem f64pack_fields (s e m : Nat) (hs : s ≤ 1) (he : e < 2048)
    (hm : m < 4503599627370496) :
    f64pack s e m % 18446744073709551616 = f64pack s e m ∧
    f64pack s e m / 9223372036854775808 = s ∧
    f64pack s e m / 4503599627370496 % 2048 = e ∧
    f64pack s e m % 4503599627370496 = m := by
  unfold f64pack
  refine ⟨?_, ?_, ?_, ?_⟩ <;> omega

/-- For `|v| < 2^53` the conversion chain `int64 → float64 → int64` is the
identity (the float is exact, truncation recovers it). -/
theorem f64_roundtrip (v : Int) (h1 : -9007199254740992 < v)
    (h2 : v < 9007199254740992) : f64truncToInt (f64bitsOfInt v) = v := by
  by_cases hv : v = 0
  · subst hv
    rfl
  · have hvabs : 0 < v.natAbs := by
      omega
    have hvlt : v.natAbs < 9007199254740992 := by
      omega
    set a := v.natAbs with ha
    have hbits := bitLen_spec a (by omega) hvabs
    set n := bitLen a with hn
    have hnpos : 0 < n := by
      rcases hbits with ⟨_, hlt⟩
      by_contra hc
      have : n = 0 := by omega
      rw [this] at hlt
      simp at hlt
      omega
    have hne : n - 1 ≤ 52 := by
      by_contra hc
      have h53 : 53 ≤ n - 1 + 1 := by omega
      have : (2 : Nat) ^ 53 ≤ 2 ^ (n - 1) := by
        apply Nat.pow_le_pow_right (by norm_num)
        omega
      have := hbits.1
      have : (2 : Nat) ^ 53 ≤ a := le_trans ‹(2 : Nat) ^ 53 ≤ 2 ^ (n - 1)› this
      norm_num at this
      omega
    set e := n - 1 with he
    have hage : 2 ^ e ≤ a := hbits.1
    have halt : a < 2 ^ (e + 1) := by
      have : n = e + 1 := by omega
      rw [← this]
      exact hbits.2
    -- the mantissa field
    set M : Nat := a * 2 ^ (52 - e) - 4503599627370496 with hM
    have hpowsplit : (2 : Nat) ^ e * 2 ^ (52 - e) = 2 ^ 52 := by
      rw [← Nat.pow_add]
      have hx : e + (52 - e) = 52 := by omega
      rw [hx]
    have hMlow : 4503599627370496 ≤ a * 2 ^ (52 - e) := by
      calc (4503599627370496 : Nat) = 2 ^ 52 := by norm_num
        _ = 2 ^ e * 2 ^ (52 - e) := hpowsplit.symm
        _ ≤ a * 2 ^ (52 - e) := mul_le_mul_right' hage _
    have hMhigh : a * 2 ^ (52 - e) < 9007199254740992 := by
      calc a * 2 ^ (52 - e) < 2 ^ (e + 1) * 2 ^ (52 - e) := by
            exact (Nat.mul_lt_mul_right (Nat.pos_pow_of_pos _ (by norm_num))).mpr halt
        _ = 2 * (2 ^ e * 2 ^ (52 - e)) := by ring
        _ = 2 * 2 ^ 52 := by rw [hpowsplit]
        _ = 9007199254740992 := by norm_num
    have hMlt : M < 4503599627370496 := by omega
    -- the encoder takes the exact branch
    have hsle : (if v < 0 then 1 else 0) ≤ 1 := by
      split <;> omega
    have henc : f64bitsOfInt v = f64pack (if v < 0 then 1 else 0) (e + 1023) M := by
      unfold f64bitsOfInt
      rw [if_neg hv]
      simp only [← ha, ← hn, ← he]
      rw [if_pos hne]
    rw [henc]
    obtain ⟨hmod, hsf, hef, hmf⟩ :=
      f64pack_fields (if v < 0 then 1 else 0) (e + 1023) M hsle (by omega) hMlt
    unfold f64truncToInt
    rw [hmod, hsf, hef, hmf]
    rw [if_neg (by omega)]
    have hmag : f64mag (e + 1023) M = a := by
      unfold f64mag
      rw [if_neg (by omega)]
      have hsum : 4503599627370496 + M = a * 2 ^ (52 - e) := by omega
      by_cases h52 : e = 52
      · rw [if_pos (by omega), hsum, h52]
        norm_num
      · rw [if_neg (by omega), hsum]
        have hx : 1075 - (e + 1023) = 52 - e := by omega
        rw [hx]
        exact Nat.mul_div_cancel a (Nat.pos_pow_of_pos _ (by norm_num))
    rw [hmag]
    unfold f64signClamp
    by_cases hneg : v < 0
    · rw [if_pos (by simp [hneg]), if_neg (by omega)]
      omega
    · rw [if_neg (by simp [hneg]), if_neg (by omega)]
      omega

/-! ## bincookie: data model (`bincookie.go`)

`Cookie.Expires`/`Created` are the Unix-epoch seconds of the Go
`time.Time` values (`ParseFile` always constructs times with zero
nanoseconds via `time.Unix(sec, 0)`, and `WriteTo` reads only `.Unix()`,
so seconds are the whole observable state). `_unknown1`/`_unknown2` are
the two reserved 4-byte regions the codec preserves. -/

structure Cookie where
  Flags : Nat
  URL : List Nat
  Name : List Nat
  Path : List Nat
  Value : List Nat
  Expires : Int
  Created : Int
  unknown1 : List Nat
  unknown2 : List Nat
deriving DecidableEq, Repr

structure Page where
  Cookies : List Cookie
deriving DecidableEq, Repr

structure File where
  Pages : List Page
  Checksum : Nat
  Policy : List Nat
deriving DecidableEq, Repr

/-- The `DefaultPolicy` constant of `bincookie.go` (the binary property
list for `NSHTTPCookieAcceptPolicy: 2`), as bytes. -/
def defaultPolicyBytes : List Nat :=
  [98, 112, 108, 105, 115, 116, 48, 48,
   209, 1, 2, 95, 16, 24,
   78, 83, 72, 84, 84, 80, 67, 111, 111, 107, 105, 101,
   65, 99, 99, 101, 112, 116, 80, 111, 108, 105, 99, 121,
   16, 2, 8, 11, 38,
   0, 0, 0, 0, 0, 0, 1, 1,
   0, 0, 0, 0, 0, 0, 0, 3,
   0, 0, 0, 0, 0, 0, 0, 0,
   0, 0, 0, 0, 0, 0, 0, 40]

/-- `macEpoch` (seconds from the Unix epoch to 01-Jan-2001 UTC). -/
def macEpoch : Int := 978307200

/-! ### Serialization (`WriteTo`)

The Go writers emit placeholders and patch them once the final position is
known; the closed-form offsets below produce the identical bytes: a cookie
record is 56 fixed bytes followed by the four NUL-terminated strings in
the order url, name, path, value, its size field is the total length, and
`uint32` stores are wrapped by `le32`/`be32` themselves. -/

def cookieWriteBytes (c : Cookie) : List Nat :=
  le32 (60 + c.URL.length + c.Name.length + c.Path.length + c.Value.length) ++
  c.unknown1 ++
  le32 c.Flags ++
  c.unknown2 ++
  le32 56 ++
  le32 (57 + c.URL.length) ++
  le32 (58 + c.URL.length + c.Name.length) ++
  le32 (59 + c.URL.length + c.Name.length + c.Path.length) ++
  List.replicate 8 0 ++
  le64 (f64bitsOfInt (wrapInt64 (c.Expires - macEpoch))) ++
  le64 (f64bitsOfInt (wrapInt64 (c.Created - macEpoch))) ++
  (c.URL ++ [0] ++ (c.Name ++ [0] ++ (c.Path ++ [0] ++ (c.Value ++ [0]))))

/-- The little-endian offset table of `Page.WriteTo`: each cookie's offset
is the running position of its record, starting right after the header. -/
def offsetTable (off : Nat) : List (List Nat) → List Nat
  | [] => []
  | b :: bs => le32 off ++ offsetTable (off + b.length) bs

def pageWriteBytes (p : Page) : List Nat :=
  [0, 0, 1, 0] ++
  le32 p.Cookies.length ++
  offsetTable (12 + 4 * p.Cookies.length) (p.Cookies.map cookieWriteBytes) ++
  le32 0 ++
  (p.Cookies.map cookieWriteBytes).flatten

/-- `pageChecksum`: sum of the bytes at offsets 0, 4, 8, …, accumulated in
a `uint32`. -/
def sumStep4 : List Nat → Nat
  | [] => 0
  | [a] => a
  | [a, _] => a
  | [a, _, _] => a
  | a :: _ :: _ :: _ :: rest => a + sumStep4 rest

def pageChecksum (b : List Nat) : Nat := sumStep4 b % 4294967296

/-- The running `uint32` checksum accumulation of `File.WriteTo`. -/
def checksumAcc : Nat → List (List Nat) → Nat
  | acc, [] => acc
  | acc, b :: bs => checksumAcc ((acc + pageChecksum b) % 4294967296) bs

/-- The big-endian page-size table of `File.WriteTo`. -/
def sizeTable : List (List Nat) → List Nat
  | [] => []
  | b :: bs => be32 b.length ++ sizeTable bs

/-- `fixPages`: drop pages without cookies. -/
def fixPages (pages : List Page) : List Page :=
  pages.filter fun p => !p.Cookies.isEmpty

/-- The policy blob actually written: `DefaultPolicy` when none is set. -/
def effectivePolicy (pol : List Nat) : List Nat :=
  if pol.isEmpty then defaultPolicyBytes else pol

/-- `File.WriteTo` on an already-normalized page list. -/
def fileWriteBytesCore (pages : List Page) (pol : List Nat) : List Nat :=
  [99, 111, 111, 107] ++
  be32 pages.length ++
  sizeTable (pages.map pageWriteBytes) ++
  (pages.map pageWriteBytes).flatten ++
  be32 (checksumAcc 0 (pages.map pageWriteBytes)) ++
  [7, 23, 32, 5] ++
  be32 (effectivePolicy pol).length ++
  effectivePolicy pol

/-- The bytes `File.WriteTo` writes for `f`. -/
def serializeFile (f : File) : List Nat :=
  fileWriteBytesCore (fixPages f.Pages) f.Policy

/-- The value `File.WriteTo` stores into `f.Checksum` as it writes. -/
def freshChecksum (f : File) : Nat :=
  checksumAcc 0 ((fixPages f.Pages).map pageWriteBytes)

/-! ### Parsing (`ParseFile`, `parsePage`, `parseCookie`)

Faithful to the Go control flow, including the places where the Go code
can panic: slicing `data[off : off+size]` panics when the wrapped
`uint32` sum `off+size` falls below `off`; `data[urlPos:]` panics when a
string offset exceeds the record length; and the policy slice
`data[cur:end]` panics when the declared policy length overruns the
buffer. -/

def nulString (d : List Nat) : List Nat := d.takeWhile (· ≠ 0)

def parseCookie (d : List Nat) : PRes Cookie :=
  (leU32 d 8).bind fun flags =>
  (leU32 d 16).bind fun urlPos =>
  (leU32 d 20).bind fun namePos =>
  (leU32 d 24).bind fun pathPos =>
  (leU32 d 28).bind fun valuePos =>
  (leU64 d 40).bind fun expBits =>
  (leU64 d 48).bind fun creBits =>
  if d.length < urlPos then .panics "slice bounds out of range" else
  if d.length < namePos then .panics "slice bounds out of range" else
  if d.length < pathPos then .panics "slice bounds out of range" else
  if d.length < valuePos then .panics "slice bounds out of range" else
  .ok { Flags := flags
        URL := nulString (d.drop urlPos)
        Name := nulString (d.drop namePos)
        Path := nulString (d.drop pathPos)
        Value := nulString (d.drop valuePos)
        Expires := wrapInt64 (f64truncToInt expBits + macEpoch)
        Created := wrapInt64 (f64truncToInt creBits + macEpoch)
        unknown1 := (d.drop 4).take 4
        unknown2 := (d.drop 12).take 4 }

/-- The cookie loop of `parsePage`: `n` iterations reading offsets at
`cur, cur+4, …` and records at those offsets. -/
def parseCookies (d : List Nat) : Nat → Nat → PRes (List Cookie)
  | 0, _ => .ok []
  | n + 1, cur =>
    (leU32 d cur).bind fun off =>
    (leU32 d off).bind fun size =>
    if d.length < (off + size) % 4294967296 then .ferr "incomplete data"
    else if (off + size) % 4294967296 < off then .panics "slice bounds out of range"
    else (parseCookie ((d.drop off).take ((off + size) % 4294967296 - off))).bind fun c =>
         (parseCookies d n (cur + 4)).bind fun cs => .ok (c :: cs)

def parsePage (d : List Nat) : PRes Page :=
  if ¬ List.isPrefixOf [0, 0, 1, 0] d then .ferr "invalid page magic" else
  (leU32 d 4).bind fun nc =>
  (parseCookies d nc 8).bind fun cs =>
  (beU32 d (8 + 4 * nc)).bind fun t =>
  if t ≠ 0 then .ferr "invalid page trailer" else .ok { Cookies := cs }

/-- The page-size loop of `ParseFile` (`np` big-endian sizes at 8, 12, …). -/
def parseSizes (d : List Nat) : Nat → Nat → PRes (List Nat)
  | 0, _ => .ok []
  | n + 1, cur =>
    (beU32 d cur).bind fun s =>
    (parseSizes d n (cur + 4)).bind fun ss => .ok (s :: ss)

/-- The page-content loop of `ParseFile`; returns the pages and the final
cursor position. -/
def parsePages (d : List Nat) : List Nat → Nat → PRes (List Page × Nat)
  | [], cur => .ok ([], cur)
  | s :: ss, cur =>
    if d.length < cur + s then .ferr "page truncated"
    else (parsePage ((d.drop cur).take s)).bind fun pg =>
         (parsePages d ss (cur + s)).bind fun pr => .ok (pg :: pr.1, pr.2)

def parseFile (d : List Nat) : PRes File :=
  if ¬ List.isPrefixOf [99, 111, 111, 107] d then .ferr "invalid file magic" else
  (beU32 d 4).bind fun np =>
  (parseSizes d np 8).bind fun sizes =>
  (parsePages d sizes (8 + 4 * np)).bind fun pr =>
  (beU32 d pr.2).bind fun fcheck =>
  if ¬ List.isPrefixOf [7, 23, 32, 5] (d.drop (pr.2 + 4)) then
    .ferr "invalid file trailer"
  else if pr.2 + 8 < d.length then
    (beU32 d (pr.2 + 8)).bind fun plen =>
    if d.length < pr.2 + 12 + plen then .panics "slice bounds out of range"
    else .ok { Pages := pr.1, Checksum := fcheck
               Policy := (d.drop (pr.2 + 12)).take plen }
  else .ok { Pages := pr.1, Checksum := fcheck, Policy := [] }

/-! ### Well-formedness

The round-trip theorems hold for files whose in-memory contents are
representable in the wire format: strings are NUL-free bytes, the
reserved regions are four bytes, timestamps are exactly representable as
IEEE-754 doubles, and the 32-bit size/count fields do not overflow. Every
file produced by `ParseFile` from codec output satisfies this. -/

def byteStr (s : List Nat) : Prop := ∀ b ∈ s, 0 < b ∧ b < 256

def timeOK (t : Int) : Prop :=
  macEpoch - 9007199254740992 < t ∧ t < macEpoch + 9007199254740992

def Cookie.wf (c : Cookie) : Prop :=
  c.Flags < 4294967296 ∧
  byteStr c.URL ∧ byteStr c.Name ∧ byteStr c.Path ∧ byteStr c.Value ∧
  c.unknown1.length = 4 ∧ (∀ b ∈ c.unknown1, b < 256) ∧
  c.unknown2.length = 4 ∧ (∀ b ∈ c.unknown2, b < 256) ∧
  timeOK c.Expires ∧ timeOK c.Created ∧
  60 + c.URL.length + c.Name.length + c.Path.length + c.Value.length
    < 4294967296

def Page.wf (p : Page) : Prop :=
  (∀ c ∈ p.Cookies, c.wf) ∧ (pageWriteBytes p).length < 4294967296

def File.wf (f : File) : Prop :=
  (∀ p ∈ f.Pages, p.wf) ∧ f.Pages.length < 4294967296 ∧
  f.Policy.length < 4294967296

instance : DecidablePred byteStr := fun s => by
  unfold byteStr
  infer_instance

instance : DecidablePred timeOK := fun t => by
  unfold timeOK
  infer_instance

instance (c : Cookie) : Decidable c.wf := by
  unfold Cookie.wf
  infer_instance

instance (p : Page) : Decidable p.wf := by
  unfold Page.wf
  infer_instance

instance (f : File) : Decidable f.wf := by
  unfold File.wf
  infer_instance

/-! ### Cookie-record round trip -/

theorem length_eq_four {α : Type} {l : List α} (h : l.length = 4) :
    ∃ a b c d, l = [a, b, c, d] := by
  rcases l with _ | ⟨a, _ | ⟨b, _ | ⟨c, _ | ⟨d, _ | ⟨e, t⟩⟩⟩⟩⟩ <;>
    simp_all

theorem nulString_str (s rest : List Nat) (h : ∀ b ∈ s, 0 < b) :
    nulString (s ++ 0 :: rest) = s := by
  induction s with
  | nil => simp [nulString]
  | cons a s ih =>
      have ha : a ≠ 0 := by
        have := h a (by simp)
        omega
      simp only [List.cons_append, nulString, List.takeWhile]
      rw [show (decide (a ≠ 0)) = true from by simp [ha]]
      simpa [nulString] using ih fun b hb => h b (by simp [hb])

theorem drop_str {α : Type} (s : List α) (z : α) (rest : List α) :
    (s ++ z :: rest).drop (s.length + 1) = rest := by
  induction s with
  | nil => simp
  | cons a s ih => simp [ih]

theorem f64truncToInt_mod (bits : Nat) :
    f64truncToInt (bits % 18446744073709551616) = f64truncToInt bits := by
  unfold f64truncToInt
  rw [Nat.mod_mod_of_dvd bits dvd_rfl]

/-- The Expires/Created codec: write `float64(t.Unix() - macEpoch)`, read
`time.Unix(int64(f) + macEpoch, 0)`; exact for representable times. -/
theorem timeField_roundtrip (t : Int) (h : timeOK t) :
    wrapInt64 (f64truncToInt
      (f64bitsOfInt (wrapInt64 (t - macEpoch)) % 18446744073709551616)
      + macEpoch) = t := by
  obtain ⟨h1, h2⟩ := h
  rw [f64truncToInt_mod]
  rw [wrapInt64_eq_self (t - macEpoch) (by unfold macEpoch at *; omega)
    (by unfold macEpoch at *; omega)]
  rw [f64_roundtrip (t - macEpoch) (by unfold macEpoch at *; omega)
    (by unfold macEpoch at *; omega)]
  have hx : t - macEpoch + macEpoch = t := by ring
  rw [hx]
  exact wrapInt64_eq_self t (by unfold macEpoch at *; omega)
    (by unfold macEpoch at *; omega)

theorem cookieWriteBytes_length (c : Cookie) (h1 : c.unknown1.length = 4)
    (h2 : c.unknown2.length = 4) :
    (cookieWriteBytes c).length =
      60 + c.URL.length + c.Name.length + c.Path.length + c.Value.length := by
  simp [cookieWriteBytes, h1, h2]
  omega

/-- Parsing a serialized cookie record recovers the cookie, even when the
record slice carries extra trailing bytes beyond the encoded fields (the
parser follows the offsets and never compares the size field with the
bytes it consumed). -/
theorem parseCookie_write (c : Cookie) (hwf : c.wf) (junk : List Nat) :
    parseCookie (cookieWriteBytes c ++ junk) = .ok c := by
  obtain ⟨fl, url, nam, pth, vlu, exp, cre, u1, u2⟩ := c
  obtain ⟨hfl, hurl, hnam, hpth, hvlu, hu1len, hu1b, hu2len, hu2b,
    hexp, hcre, hsz⟩ := hwf
  simp only at hfl hurl hnam hpth hvlu hu1len hu1b hu2len hu2b hexp hcre hsz
  obtain ⟨a1, a2, a3, a4, rfl⟩ := length_eq_four hu1len
  obtain ⟨b1, b2, b3, b4, rfl⟩ := length_eq_four hu2len
  set su := url.length with hsu
  set sn := nam.length with hsn
  set sp := pth.length with hsp
  set sv := vlu.length with hsv
  set sz := 60 + su + sn + sp + sv with hszdef
  set eb := f64bitsOfInt (wrapInt64 (exp - macEpoch)) with heb
  set cb := f64bitsOfInt (wrapInt64 (cre - macEpoch)) with hcb
  set S : List Nat :=
    url ++ 0 :: (nam ++ 0 :: (pth ++ 0 :: (vlu ++ 0 :: junk))) with hS
  set C : Cookie := ⟨fl, url, nam, pth, vlu, exp, cre,
    [a1, a2, a3, a4], [b1, b2, b3, b4]⟩ with hC
  set D := cookieWriteBytes C ++ junk with hD
  have hlenD : D.length = sz + junk.length := by
    rw [hD, List.length_append, cookieWriteBytes_length C rfl rfl]
  -- groupings of the record bytes
  have hg8 : D = (le32 sz ++ [a1, a2, a3, a4]) ++ (le32 fl ++
      ([b1, b2, b3, b4] ++ le32 56 ++ le32 (57 + su) ++
       le32 (58 + su + sn) ++ le32 (59 + su + sn + sp) ++
       List.replicate 8 0 ++ le64 eb ++ le64 cb ++ S)) := by
    rw [hD, hC]
    simp [cookieWriteBytes, hS, List.append_assoc, hszdef, heb, hcb]
  have hg16 : D = (le32 sz ++ [a1, a2, a3, a4] ++ le32 fl ++
      [b1, b2, b3, b4]) ++ (le32 56 ++
      (le32 (57 + su) ++ le32 (58 + su + sn) ++ le32 (59 + su + sn + sp) ++
       List.replicate 8 0 ++ le64 eb ++ le64 cb ++ S)) := by
    rw [hD, hC]
    simp [cookieWriteBytes, hS, List.append_assoc, hszdef, heb, hcb]
  have hg20 : D = (le32 sz ++ [a1, a2, a3, a4] ++ le32 fl ++
      [b1, b2, b3, b4] ++ le32 56) ++ (le32 (57 + su) ++
      (le32 (58 + su + sn) ++ le32 (59 + su + sn + sp) ++
       List.replicate 8 0 ++ le64 eb ++ le64 cb ++ S)) := by
    rw [hD, hC]
    simp [cookieWriteBytes, hS, List.append_assoc, hszdef, heb, hcb]
  have hg24 : D = (le32 sz ++ [a1, a2, a3, a4] ++ le32 fl ++
      [b1, b2, b3, b4] ++ le32 56 ++ le32 (57 + su)) ++
      (le32 (58 + su + sn) ++ (le32 (59 + su + sn + sp) ++
       List.replicate 8 0 ++ le64 eb ++ le64 cb ++ S)) := by
    rw [hD, hC]
    simp [cookieWriteBytes, hS, List.append_assoc, hszdef, heb, hcb]
  have hg28 : D = (le32 sz ++ [a1, a2, a3, a4] ++ le32 fl ++
      [b1, b2, b3, b4] ++ le32 56 ++ le32 (57 + su) ++
      le32 (58 + su + sn)) ++ (le32 (59 + su + sn + sp) ++
      (List.replicate 8 0 ++ le64 eb ++ le64 cb ++ S)) := by
    rw [hD, hC]
    simp [cookieWriteBytes, hS, List.append_assoc, hszdef, heb, hcb]
  have hg40 : D = (le32 sz ++ [a1, a2, a3, a4] ++ le32 fl ++
      [b1, b2, b3, b4] ++ le32 56 ++ le32 (57 + su) ++
      le32 (58 + su + sn) ++ le32 (59 + su + sn + sp) ++
      List.replicate 8 0) ++ (le64 eb ++ (le64 cb ++ S)) := by
    rw [hD, hC]
    simp [cookieWriteBytes, hS, List.append_assoc, hszdef, heb, hcb]
  have hg48 : D = (le32 sz ++ [a1, a2, a3, a4] ++ le32 fl ++
      [b1, b2, b3, b4] ++ le32 56 ++ le32 (57 + su) ++
      le32 (58 + su + sn) ++ le32 (59 + su + sn + sp) ++
      List.replicate 8 0 ++ le64 eb) ++ (le64 cb ++ S) := by
    rw [hD, hC]
    simp [cookieWriteBytes, hS, List.append_assoc, hszdef, heb, hcb]
  have hg56 : D = (le32 sz ++ [a1, a2, a3, a4] ++ le32 fl ++
      [b1, b2, b3, b4] ++ le32 56 ++ le32 (57 + su) ++
      le32 (58 + su + sn) ++ le32 (59 + su + sn + sp) ++
      List.replicate 8 0 ++ le64 eb ++ le64 cb) ++ S := by
    rw [hD, hC]
    simp [cookieWriteBytes, hS, List.append_assoc, hszdef, heb, hcb]
  have hg4 : D = le32 sz ++ ([a1, a2, a3, a4] ++ (le32 fl ++
      ([b1, b2, b3, b4] ++ (le32 56 ++ le32 (57 + su) ++
       le32 (58 + su + sn) ++ le32 (59 + su + sn + sp) ++
       List.replicate 8 0 ++ le64 eb ++ le64 cb ++ S)))) := by
    rw [hD, hC]
    simp [cookieWriteBytes, hS, List.append_assoc, hszdef, heb, hcb]
  have hg12 : D = (le32 sz ++ [a1, a2, a3, a4] ++ le32 fl) ++
      ([b1, b2, b3, b4] ++ (le32 56 ++ le32 (57 + su) ++
       le32 (58 + su + sn) ++ le32 (59 + su + sn + sp) ++
       List.replicate 8 0 ++ le64 eb ++ le64 cb ++ S)) := by
    rw [hD, hC]
    simp [cookieWriteBytes, hS, List.append_assoc, hszdef, heb, hcb]
  -- the seven field reads
  have hr8 : leU32 D 8 = .ok fl := by
    rw [hg8, show (8 : Nat) = (le32 sz ++ [a1, a2, a3, a4]).length + 0 by simp,
      leU32_append, leU32_le32, Nat.mod_eq_of_lt hfl]
  have hr16 : leU32 D 16 = .ok 56 := by
    rw [hg16, show (16 : Nat) =
        (le32 sz ++ [a1, a2, a3, a4] ++ le32 fl ++ [b1, b2, b3, b4]).length + 0
      by simp, leU32_append, leU32_le32]
  have hr20 : leU32 D 20 = .ok (57 + su) := by
    rw [hg20, show (20 : Nat) =
        (le32 sz ++ [a1, a2, a3, a4] ++ le32 fl ++ [b1, b2, b3, b4] ++
         le32 56).length + 0 by simp,
      leU32_append, leU32_le32, Nat.mod_eq_of_lt (by omega)]
  have hr24 : leU32 D 24 = .ok (58 + su + sn) := by
    rw [hg24, show (24 : Nat) =
        (le32 sz ++ [a1, a2, a3, a4] ++ le32 fl ++ [b1, b2, b3, b4] ++
         le32 56 ++ le32 (57 + su)).length + 0 by simp,
      leU32_append, leU32_le32, Nat.mod_eq_of_lt (by omega)]
  have hr28 : leU32 D 28 = .ok (59 + su + sn + sp) := by
    rw [hg28, show (28 : Nat) =
        (le32 sz ++ [a1, a2, a3, a4] ++ le32 fl ++ [b1, b2, b3, b4] ++
         le32 56 ++ le32 (57 + su) ++ le32 (58 + su + sn)).length + 0 by simp,
      leU32_append, leU32_le32, Nat.mod_eq_of_lt (by omega)]
  have hr40 : leU64 D 40 = .ok (eb % 18446744073709551616) := by
    rw [hg40, show (40 : Nat) =
        (le32 sz ++ [a1, a2, a3, a4] ++ le32 fl ++ [b1, b2, b3, b4] ++
         le32 56 ++ le32 (57 + su) ++ le32 (58 + su + sn) ++
         le32 (59 + su + sn + sp) ++ List.replicate 8 0).length + 0
      by simp, leU64_append, leU64_le64]
  have hr48 : leU64 D 48 = .ok (cb % 18446744073709551616) := by
    rw [hg48, show (48 : Nat) =
        (le32 sz ++ [a1, a2, a3, a4] ++ le32 fl ++ [b1, b2, b3, b4] ++
         le32 56 ++ le32 (57 + su) ++ le32 (58 + su + sn) ++
         le32 (59 + su + sn + sp) ++ List.replicate 8 0 ++ le64 eb).length + 0
      by simp, leU64_append, leU64_le64]
  -- the string regions
  have hd56 : D.drop 56 = S := by
    rw [hg56]
    exact List.drop_left' (by simp)
  have hd57 : D.drop (57 + su) = nam ++ 0 :: (pth ++ 0 :: (vlu ++ 0 :: junk)) := by
    have hgs : D = ((le32 sz ++ [a1, a2, a3, a4] ++ le32 fl ++
        [b1, b2, b3, b4] ++ le32 56 ++ le32 (57 + su) ++
        le32 (58 + su + sn) ++ le32 (59 + su + sn + sp) ++
        List.replicate 8 0 ++ le64 eb ++ le64 cb) ++ (url ++ [0])) ++
        (nam ++ 0 :: (pth ++ 0 :: (vlu ++ 0 :: junk))) := by
      rw [hg56, hS]
      simp [List.append_assoc]
    rw [hgs]
    exact List.drop_left' (by simp [hsu]; omega)
  have hd58 : D.drop (58 + su + sn) = pth ++ 0 :: (vlu ++ 0 :: junk) := by
    have hgs : D = ((le32 sz ++ [a1, a2, a3, a4] ++ le32 fl ++
        [b1, b2, b3, b4] ++ le32 56 ++ le32 (57 + su) ++
        le32 (58 + su + sn) ++ le32 (59 + su + sn + sp) ++
        List.replicate 8 0 ++ le64 eb ++ le64 cb) ++ (url ++ [0] ++
        (nam ++ [0]))) ++ (pth ++ 0 :: (vlu ++ 0 :: junk)) := by
      rw [hg56, hS]
      simp [List.append_assoc]
    rw [hgs]
    exact List.drop_left' (by simp [hsu, hsn]; omega)
  have hd59 : D.drop (59 + su + sn + sp) = vlu ++ 0 :: junk := by
    have hgs : D = ((le32 sz ++ [a1, a2, a3, a4] ++ le32 fl ++
        [b1, b2, b3, b4] ++ le32 56 ++ le32 (57 + su) ++
        le32 (58 + su + sn) ++ le32 (59 + su + sn + sp) ++
        List.replicate 8 0 ++ le64 eb ++ le64 cb) ++ (url ++ [0] ++
        (nam ++ [0]) ++ (pth ++ [0]))) ++ (vlu ++ 0 :: junk) := by
      rw [hg56, hS]
      simp [List.append_assoc]
    rw [hgs]
    exact List.drop_left' (by simp [hsu, hsn, hsp]; omega)
  -- the reserved regions
  have hd4 : (D.drop 4).take 4 = [a1, a2, a3, a4] := by
    rw [hg4, List.drop_left' (by simp)]
    rfl
  have hd12 : (D.drop 12).take 4 = [b1, b2, b3, b4] := by
    rw [hg12, List.drop_left' (by simp)]
    rfl
  -- assemble
  unfold parseCookie
  rw [hr8, PRes.bind_ok, hr16, PRes.bind_ok, hr20, PRes.bind_ok,
    hr24, PRes.bind_ok, hr28, PRes.bind_ok, hr40, PRes.bind_ok,
    hr48, PRes.bind_ok]
  rw [if_neg (by omega), if_neg (by omega), if_neg (by omega),
    if_neg (by omega)]
  rw [hd56, hd57, hd58, hd59, hd4, hd12]
  rw [hS]
  rw [nulString_str url _ (fun b hb => (hurl b hb).1)]
  rw [nulString_str nam _ (fun b hb => (hnam b hb).1)]
  rw [nulString_str pth _ (fun b hb => (hpth b hb).1)]
  rw [nulString_str vlu _ (fun b hb => (hvlu b hb).1)]
  rw [timeField_roundtrip exp hexp, timeField_roundtrip cre hcre]

/-! ### Page round trip -/

def sumLens (bs : List (List Nat)) : Nat := (bs.map List.length).sum

@[simp] theorem sumLens_nil : sumLens [] = 0 := rfl

@[simp] theorem sumLens_cons (b : List Nat) (bs : List (List Nat)) :
    sumLens (b :: bs) = b.length + sumLens bs := rfl

theorem sumLens_append (xs ys : List (List Nat)) :
    sumLens (xs ++ ys) = sumLens xs + sumLens ys := by
  simp [sumLens]

theorem sumLens_flatten (bs : List (List Nat)) :
    bs.flatten.length = sumLens bs := List.length_flatten bs

@[simp] theorem offsetTable_length (b0 : Nat) (bs : List (List Nat)) :
    (offsetTable b0 bs).length = 4 * bs.length := by
  induction bs generalizing b0 with
  | nil => rfl
  | cons b bs ih => simp [offsetTable, ih]; omega

/-- Reading the `j`-th entry of the offset table yields the cumulative
record offset. -/
theorem offsetTable_read (bs : List (List Nat)) :
    ∀ (j b0 : Nat) (rest : List Nat), j < bs.length →
    leU32 (offsetTable b0 bs ++ rest) (4 * j)
      = .ok ((b0 + sumLens (bs.take j)) % 4294967296) := by
  induction bs with
  | nil => intro j _ _ h; simp at h
  | cons b bs ih =>
      intro j b0 rest hj
      cases j with
      | zero =>
          simp only [offsetTable, List.append_assoc, Nat.mul_zero]
          rw [leU32_le32]
          simp
      | succ j =>
          have h4 : 4 * (j + 1) = (le32 b0).length + 4 * j := by simp; omega
          simp only [offsetTable, List.append_assoc]
          rw [h4, leU32_append, ih j (b0 + b.length) rest (by simpa using hj)]
          have hs : (b :: bs).take (j + 1) = b :: bs.take j := rfl
          rw [hs, sumLens_cons]
          have hx : b0 + b.length + sumLens (bs.take j)
              = b0 + (b.length + sumLens (bs.take j)) := by omega
          rw [hx]

theorem leU32_drop (d : List Nat) (pos : Nat) (hpos : pos ≤ d.length) :
    leU32 d pos = leU32 (d.drop pos) 0 := by
  have h := leU32_append (d.take pos) (d.drop pos) 0
  rw [List.take_append_drop, List.length_take, Nat.min_eq_left hpos] at h
  simpa using h

theorem beU32_drop (d : List Nat) (pos : Nat) (hpos : pos ≤ d.length) :
    beU32 d pos = beU32 (d.drop pos) 0 := by
  have h := beU32_append (d.take pos) (d.drop pos) 0
  rw [List.take_append_drop, List.length_take, Nat.min_eq_left hpos] at h
  simpa using h

/-- The cookie loop of `parsePage` recovers the remaining cookies from a
serialized page, for any split `all = front ++ todo`. -/
theorem parseCookies_loop (all : List Cookie)
    (hwf : ∀ c ∈ all, c.wf)
    (d : List Nat)
    (hd : d = [0, 0, 1, 0] ++ le32 all.length ++
      offsetTable (12 + 4 * all.length) (all.map cookieWriteBytes) ++
      le32 0 ++ (all.map cookieWriteBytes).flatten)
    (hlen : d.length < 4294967296) :
    ∀ (todo front : List Cookie), all = front ++ todo →
      parseCookies d todo.length (8 + 4 * front.length) = .ok todo := by
  have hdlen : d.length = 12 + 4 * all.length +
      sumLens (all.map cookieWriteBytes) := by
    rw [hd]
    simp only [List.length_append, le32_length, offsetTable_length,
      List.length_map, List.length_cons, List.length_nil]
    rw [sumLens_flatten]
    omega
  intro todo
  induction todo with
  | nil => intro front _; rfl
  | cons c todo ih =>
      intro front hsplit
      have hcwf : c.wf := hwf c (by rw [hsplit]; simp)
      obtain ⟨_, _, _, _, _, hu1len, _, hu2len, _, _, _, hszb⟩ := hcwf
      have hmapsplit : all.map cookieWriteBytes =
          front.map cookieWriteBytes ++
          (cookieWriteBytes c :: todo.map cookieWriteBytes) := by
        rw [hsplit]
        simp
      have hsum : sumLens (all.map cookieWriteBytes) =
          sumLens (front.map cookieWriteBytes) +
          ((cookieWriteBytes c).length + sumLens (todo.map cookieWriteBytes)) := by
        rw [hmapsplit, sumLens_append, sumLens_cons]
      set off := 12 + 4 * all.length + sumLens (front.map cookieWriteBytes)
        with hoff
      have hsz : (cookieWriteBytes c).length =
          60 + c.URL.length + c.Name.length + c.Path.length +
            c.Value.length := cookieWriteBytes_length c hu1len hu2len
      have hofflt : off + (cookieWriteBytes c).length +
          sumLens (todo.map cookieWriteBytes) = d.length := by
        omega
      -- the record region from `off` onward
      have hdrop : d.drop off = cookieWriteBytes c ++
          (todo.map cookieWriteBytes).flatten := by
        have hfl : (all.map cookieWriteBytes).flatten =
            (front.map cookieWriteBytes).flatten ++
            (cookieWriteBytes c ++ (todo.map cookieWriteBytes).flatten) := by
          rw [hmapsplit]
          simp
        have hdgroup : d = (([0, 0, 1, 0] ++ le32 all.length ++
            offsetTable (12 + 4 * all.length) (all.map cookieWriteBytes) ++
            le32 0) ++ (front.map cookieWriteBytes).flatten) ++
            (cookieWriteBytes c ++ (todo.map cookieWriteBytes).flatten) := by
          rw [hd, hfl]
          simp [List.append_assoc]
        rw [hdgroup]
        apply List.drop_left'
        simp only [List.length_append, le32_length, offsetTable_length,
          List.length_map, List.length_cons, List.length_nil]
        rw [sumLens_flatten]
        omega
      -- read the offset entry
      have hread : leU32 d (8 + 4 * front.length) = .ok off := by
        have hg : d = ([0, 0, 1, 0] ++ le32 all.length) ++
            (offsetTable (12 + 4 * all.length) (all.map cookieWriteBytes) ++
             (le32 0 ++ (all.map cookieWriteBytes).flatten)) := by
          rw [hd]
          simp [List.append_assoc]
        rw [hg, show 8 + 4 * front.length =
            ([0, 0, 1, 0] ++ le32 all.length).length + 4 * front.length
          by simp, leU32_append]
        rw [offsetTable_read (all.map cookieWriteBytes) front.length
          (12 + 4 * all.length) _ (by rw [hmapsplit]; simp)]
        have htake : (all.map cookieWriteBytes).take front.length =
            front.map cookieWriteBytes := by
          rw [hmapsplit]
          exact List.take_left' (by simp)
        rw [htake, ← hoff, Nat.mod_eq_of_lt (by omega)]
      -- read the record's size field
      have hsread : leU32 d off = .ok (cookieWriteBytes c).length := by
        rw [leU32_drop d off (by omega), hdrop]
        have hcg : cookieWriteBytes c ++ (todo.map cookieWriteBytes).flatten =
            le32 (60 + c.URL.length + c.Name.length + c.Path.length +
              c.Value.length) ++
            (c.unknown1 ++ le32 c.Flags ++ c.unknown2 ++ le32 56 ++
             le32 (57 + c.URL.length) ++
             le32 (58 + c.URL.length + c.Name.length) ++
             le32 (59 + c.URL.length + c.Name.length + c.Path.length) ++
             List.replicate 8 0 ++
             le64 (f64bitsOfInt (wrapInt64 (c.Expires - macEpoch))) ++
             le64 (f64bitsOfInt (wrapInt64 (c.Created - macEpoch))) ++
             (c.URL ++ [0] ++ (c.Name ++ [0] ++ (c.Path ++ [0] ++
              (c.Value ++ [0])))) ++ (todo.map cookieWriteBytes).flatten) := by
          simp [cookieWriteBytes, List.append_assoc]
        rw [hcg, leU32_le32, hsz, Nat.mod_eq_of_lt (by omega)]
      -- the loop step
      show parseCookies d (todo.length + 1) (8 + 4 * front.length) = _
      rw [parseCookies, hread, PRes.bind_ok, hsread, PRes.bind_ok]
      rw [Nat.mod_eq_of_lt (by omega)]
      rw [if_neg (by omega), if_neg (by omega)]
      have hslice : (d.drop off).take
          (off + (cookieWriteBytes c).length - off) = cookieWriteBytes c := by
        rw [hdrop, show off + (cookieWriteBytes c).length - off =
          (cookieWriteBytes c).length by omega]
        exact List.take_left _ _
      rw [hslice]
      have hpc : parseCookie (cookieWriteBytes c) = .ok c := by
        have hw := parseCookie_write c (hwf c (by rw [hsplit]; simp)) []
        simpa using hw
      rw [hpc, PRes.bind_ok]
      have hih := ih (front ++ [c]) (by rw [hsplit]; simp)
      rw [show 8 + 4 * front.length + 4 = 8 + 4 * (front ++ [c]).length
        by simp; omega]
      rw [hih]
      rfl

/-- `parsePage` inverts `Page.WriteTo`. -/
theorem parsePage_write (p : Page) (hwf : p.wf) :
    parsePage (pageWriteBytes p) = .ok p := by
  obtain ⟨hcwf, hlen⟩ := hwf
  obtain ⟨cs⟩ := p
  simp only at hcwf
  set d := pageWriteBytes ⟨cs⟩ with hd
  have hdshape : d = [0, 0, 1, 0] ++ le32 cs.length ++
      offsetTable (12 + 4 * cs.length) (cs.map cookieWriteBytes) ++
      le32 0 ++ (cs.map cookieWriteBytes).flatten := by
    rw [hd]
    simp [pageWriteBytes, List.append_assoc]
  have hdlen : d.length = 12 + 4 * cs.length +
      sumLens (cs.map cookieWriteBytes) := by
    rw [hdshape]
    simp only [List.length_append, le32_length, offsetTable_length,
      List.length_map, List.length_cons, List.length_nil]
    rw [sumLens_flatten]
    omega
  unfold parsePage
  rw [if_neg (by rw [hdshape]; simp [List.isPrefixOf, List.cons_append])]
  have hg4 : d = [0, 0, 1, 0] ++ (le32 cs.length ++
      (offsetTable (12 + 4 * cs.length) (cs.map cookieWriteBytes) ++
       (le32 0 ++ (cs.map cookieWriteBytes).flatten))) := by
    rw [hdshape]
    simp [List.append_assoc]
  have hnc : leU32 d 4 = .ok cs.length := by
    rw [hg4, show (4 : Nat) = ([0, 0, 1, 0] : List Nat).length + 0 by simp,
      leU32_append, leU32_le32, Nat.mod_eq_of_lt (by omega)]
  rw [hnc, PRes.bind_ok]
  have hloop := parseCookies_loop cs hcwf d hdshape (by omega) cs [] rfl
  norm_num at hloop
  rw [hloop, PRes.bind_ok]
  have hd8 : d.drop (8 + 4 * cs.length) =
      le32 0 ++ (cs.map cookieWriteBytes).flatten := by
    have hg : d = (([0, 0, 1, 0] ++ le32 cs.length) ++
        offsetTable (12 + 4 * cs.length) (cs.map cookieWriteBytes)) ++
        (le32 0 ++ (cs.map cookieWriteBytes).flatten) := by
      rw [hdshape]
      simp [List.append_assoc]
    rw [hg]
    apply List.drop_left'
    simp only [List.length_append, le32_length, offsetTable_length,
      List.length_map, List.length_cons, List.length_nil]
    try omega
  have htr : beU32 d (8 + 4 * cs.length) = .ok 0 := by
    rw [beU32_drop d (8 + 4 * cs.length) (by omega), hd8,
      show le32 0 = be32 0 from rfl, beU32_be32]
  rw [htr, PRes.bind_ok, if_neg (by omega)]

/-! ### File round trip -/

theorem checksumAcc_lt (bs : List (List Nat)) :
    ∀ acc, acc < 4294967296 → checksumAcc acc bs < 4294967296 := by
  induction bs with
  | nil => intro acc h; exact h
  | cons b bs ih =>
      intro acc h
      exact ih _ (Nat.mod_lt _ (by norm_num))

@[simp] theorem sizeTable_length (bs : List (List Nat)) :
    (sizeTable bs).length = 4 * bs.length := by
  induction bs with
  | nil => rfl
  | cons b bs ih => simp [sizeTable, ih]; omega

/-- The size loop of `ParseFile` reads back the page lengths. -/
theorem parseSizes_loop (d : List Nat) :
    ∀ (bs : List (List Nat)) (pre rest : List Nat),
    d = pre ++ (sizeTable bs ++ rest) →
    (∀ b ∈ bs, b.length < 4294967296) →
    parseSizes d bs.length pre.length = .ok (bs.map List.length) := by
  intro bs
  induction bs with
  | nil => intro pre rest _ _; rfl
  | cons b bs ih =>
      intro pre rest hd hb
      have hr : beU32 d pre.length = .ok b.length := by
        rw [hd, show pre.length = pre.length + 0 by omega, beU32_append]
        have hg : sizeTable (b :: bs) ++ rest =
            be32 b.length ++ (sizeTable bs ++ rest) := by
          simp [sizeTable, List.append_assoc]
        rw [hg, beU32_be32, Nat.mod_eq_of_lt (hb b (by simp))]
      show parseSizes d (bs.length + 1) pre.length = _
      rw [parseSizes, hr, PRes.bind_ok]
      have hih := ih (pre ++ be32 b.length) rest
        (by rw [hd]; simp [sizeTable, List.append_assoc])
        (fun x hx => hb x (by simp [hx]))
      rw [show pre.length + 4 = (pre ++ be32 b.length).length by simp] at *
      rw [hih]
      rfl

/-- The page loop of `ParseFile` recovers the pages and the final cursor. -/
theorem parsePages_loop (d : List Nat) :
    ∀ (ps : List Page) (pre rest : List Nat),
    d = pre ++ ((ps.map pageWriteBytes).flatten ++ rest) →
    (∀ p ∈ ps, p.wf) →
    parsePages d (ps.map fun p => (pageWriteBytes p).length) pre.length
      = .ok (ps, pre.length + sumLens (ps.map pageWriteBytes)) := by
  intro ps
  induction ps with
  | nil =>
      intro pre rest _ _
      simp [parsePages, sumLens]
  | cons p ps ih =>
      intro pre rest hd hwf
      have hdl : d.length = pre.length + ((pageWriteBytes p).length +
          (sumLens (ps.map pageWriteBytes) + rest.length)) := by
        rw [hd]
        simp only [List.length_append, List.flatten_cons, List.map_cons]
        rw [sumLens_flatten]
        try omega
      have hdrop : d.drop pre.length =
          pageWriteBytes p ++ ((ps.map pageWriteBytes).flatten ++ rest) := by
        rw [hd, List.drop_left' rfl]
        simp [List.append_assoc]
      show parsePages d ((pageWriteBytes p).length ::
        (ps.map fun q => (pageWriteBytes q).length)) pre.length = _
      rw [parsePages]
      rw [if_neg (by omega)]
      have hslice : (d.drop pre.length).take (pageWriteBytes p).length =
          pageWriteBytes p := by
        rw [hdrop]
        exact List.take_left _ _
      rw [hslice, parsePage_write p (hwf p (by simp)), PRes.bind_ok]
      have hih := ih (pre ++ pageWriteBytes p) rest
        (by rw [hd]; simp [List.append_assoc])
        (fun q hq => hwf q (by simp [hq]))
      rw [show pre.length + (pageWriteBytes p).length =
        (pre ++ pageWriteBytes p).length by simp] at *
      rw [hih, PRes.bind_ok]
      simp [sumLens_cons]
      omega

theorem effectivePolicy_ne_nil (pol : List Nat) : effectivePolicy pol ≠ [] := by
  unfold effectivePolicy
  split
  · simp [defaultPolicyBytes]
  · rename_i h
    simpa [List.isEmpty_iff] using h

/-- `ParseFile` inverts `File.WriteTo` on a normalized page list: the pages
and the policy blob written are read back, and the checksum field is the
freshly computed one. -/
theorem parseFile_core (pages : List Page) (pol : List Nat)
    (hwf : ∀ p ∈ pages, p.wf) (hnp : pages.length < 4294967296)
    (hpol : pol.length < 4294967296) :
    parseFile (fileWriteBytesCore pages pol) =
      .ok { Pages := pages,
            Checksum := checksumAcc 0 (pages.map pageWriteBytes),
            Policy := effectivePolicy pol } := by
  set ep := effectivePolicy pol with hep
  have hepl : ep.length < 4294967296 := by
    rw [hep]
    unfold effectivePolicy
    split
    · norm_num [defaultPolicyBytes]
    · exact hpol
  have heppos : 0 < ep.length := by
    have := effectivePolicy_ne_nil pol
    rw [← hep] at this
    cases hx : ep with
    | nil => exact absurd hx this
    | cons a l => simp [hx]
  set d := fileWriteBytesCore pages pol with hd
  set ck := checksumAcc 0 (pages.map pageWriteBytes) with hck
  have hdshape : d = [99, 111, 111, 107] ++ be32 pages.length ++
      sizeTable (pages.map pageWriteBytes) ++
      (pages.map pageWriteBytes).flatten ++ be32 ck ++
      [7, 23, 32, 5] ++ be32 ep.length ++ ep := by
    rw [hd]
    simp [fileWriteBytesCore, hck, hep, List.append_assoc]
  have hdlen : d.length = 8 + 4 * pages.length +
      sumLens (pages.map pageWriteBytes) + 12 + ep.length := by
    rw [hdshape]
    simp only [List.length_append, be32_length, sizeTable_length,
      List.length_map, List.length_cons, List.length_nil]
    rw [sumLens_flatten]
    try omega
  unfold parseFile
  rw [if_neg (by rw [hdshape]; simp [List.isPrefixOf, List.cons_append])]
  have hnpr : beU32 d 4 = .ok pages.length := by
    have hg : d = [99, 111, 111, 107] ++ (be32 pages.length ++
        (sizeTable (pages.map pageWriteBytes) ++
         ((pages.map pageWriteBytes).flatten ++ (be32 ck ++
          ([7, 23, 32, 5] ++ (be32 ep.length ++ ep)))))) := by
      rw [hdshape]
      simp [List.append_assoc]
    rw [hg, show (4 : Nat) = ([99, 111, 111, 107] : List Nat).length + 0
      by simp, beU32_append, beU32_be32, Nat.mod_eq_of_lt (by omega)]
  rw [hnpr, PRes.bind_ok]
  have hsizes : parseSizes d pages.length 8 = .ok
      ((pages.map pageWriteBytes).map List.length) := by
    have hx := parseSizes_loop d (pages.map pageWriteBytes)
      ([99, 111, 111, 107] ++ be32 pages.length)
      ((pages.map pageWriteBytes).flatten ++ (be32 ck ++
       ([7, 23, 32, 5] ++ (be32 ep.length ++ ep))))
      (by rw [hdshape]; simp [List.append_assoc])
      (by intro b hb
          simp only [List.mem_map] at hb
          obtain ⟨p, hp, rfl⟩ := hb
          exact (hwf p hp).2)
    simpa using hx
  rw [hsizes, PRes.bind_ok]
  have hpages : parsePages d
      ((pages.map pageWriteBytes).map List.length) (8 + 4 * pages.length)
      = .ok (pages, 8 + 4 * pages.length +
             sumLens (pages.map pageWriteBytes)) := by
    have hx := parsePages_loop d pages
      ([99, 111, 111, 107] ++ be32 pages.length ++
       sizeTable (pages.map pageWriteBytes))
      (be32 ck ++ ([7, 23, 32, 5] ++ (be32 ep.length ++ ep)))
      (by rw [hdshape]; simp [List.append_assoc])
      hwf
    have hpl : ([99, 111, 111, 107] ++ be32 pages.length ++
        sizeTable (pages.map pageWriteBytes)).length
        = 8 + 4 * pages.length := by
      simp only [List.length_append, be32_length, sizeTable_length,
        List.length_map, List.length_cons, List.length_nil]
      try omega
    rw [hpl] at hx
    rw [show (pages.map pageWriteBytes).map List.length =
      pages.map fun p => (pageWriteBytes p).length by simp]
    exact hx
  rw [hpages, PRes.bind_ok]
  set cur := 8 + 4 * pages.length + sumLens (pages.map pageWriteBytes)
    with hcur
  have hcklt : ck < 4294967296 := by
    rw [hck]
    exact checksumAcc_lt _ 0 (by norm_num)
  have hdropcur : d.drop cur =
      be32 ck ++ ([7, 23, 32, 5] ++ (be32 ep.length ++ ep)) := by
    have hg : d = ([99, 111, 111, 107] ++ be32 pages.length ++
        sizeTable (pages.map pageWriteBytes) ++
        (pages.map pageWriteBytes).flatten) ++
        (be32 ck ++ ([7, 23, 32, 5] ++ (be32 ep.length ++ ep))) := by
      rw [hdshape]
      simp [List.append_assoc]
    rw [hg]
    apply List.drop_left'
    simp only [List.length_append, be32_length, sizeTable_length,
      List.length_map, List.length_cons, List.length_nil]
    rw [sumLens_flatten]
    try omega
  have hckr : beU32 d cur = .ok ck := by
    rw [beU32_drop d cur (by omega), hdropcur, beU32_be32,
      Nat.mod_eq_of_lt hcklt]
  rw [hckr, PRes.bind_ok]
  have hdrop4 : d.drop (cur + 4) = [7, 23, 32, 5] ++ (be32 ep.length ++ ep) := by
    rw [← List.drop_drop, hdropcur]
    exact List.drop_left' (by simp)
  rw [if_neg (by rw [hdrop4]; simp [List.isPrefixOf, List.cons_append])]
  rw [if_pos (by omega)]
  have hdrop8 : d.drop (cur + 8) = be32 ep.length ++ ep := by
    rw [← List.drop_drop, hdropcur]
    have hgr : be32 ck ++ ([7, 23, 32, 5] ++ (be32 ep.length ++ ep)) =
        (be32 ck ++ [7, 23, 32, 5]) ++ (be32 ep.length ++ ep) := by
      simp [List.append_assoc]
    rw [hgr]
    exact List.drop_left' (by simp)
  have hplen : beU32 d (cur + 8) = .ok ep.length := by
    rw [beU32_drop d (cur + 8) (by omega), hdrop8, beU32_be32,
      Nat.mod_eq_of_lt hepl]
  rw [hplen, PRes.bind_ok]
  rw [if_neg (by omega)]
  have hdrop12 : d.drop (cur + 12) = ep := by
    rw [← List.drop_drop, hdropcur]
    have hgr : be32 ck ++ ([7, 23, 32, 5] ++ (be32 ep.length ++ ep)) =
        (be32 ck ++ [7, 23, 32, 5] ++ be32 ep.length) ++ ep := by
      simp [List.append_assoc]
    rw [hgr]
    exact List.drop_left' (by simp)
  rw [hdrop12, List.take_length]

/-! ### Round-trip consequences and claim statements for bincookie -/

theorem fixPages_eq_self (pages : List Page)
    (hne : ∀ p ∈ pages, p.Cookies ≠ []) : fixPages pages = pages := by
  unfold fixPages
  rw [List.filter_eq_self]
  intro p hp
  simpa [List.isEmpty_iff] using hne p hp

theorem effectivePolicy_idem (pol : List Nat) :
    effectivePolicy (effectivePolicy pol) = effectivePolicy pol := by
  unfold effectivePolicy
  split
  · rename_i h
    rw [if_neg (by simp [defaultPolicyBytes])]
  · rfl

/-- Round trip of `WriteTo`/`ParseFile` for any well-formed file: pages are
recovered, the checksum is the freshly computed one, and the policy is the
one actually written (the default when the file had none). -/
theorem parse_serializeFile (f : File) (hwf : f.wf) :
    parseFile (serializeFile f) =
      .ok { Pages := fixPages f.Pages, Checksum := freshChecksum f,
            Policy := effectivePolicy f.Policy } := by
  obtain ⟨hpw, hnp, hpol⟩ := hwf
  unfold serializeFile freshChecksum
  apply parseFile_core
  · intro p hp
    exact hpw p (List.mem_of_mem_filter hp)
  · exact lt_of_le_of_lt (List.length_filter_le _ _) hnp
  · exact hpol

theorem fixPages_idem (ps : List Page) : fixPages (fixPages ps) = fixPages ps := by
  unfold fixPages
  rw [List.filter_eq_self]
  intro p hp
  exact (List.mem_filter.mp hp).2

/-- Re-serializing the parse of codec output reproduces the bytes. -/
theorem serialize_roundtrip_bytes (f : File) :
    serializeFile { Pages := fixPages f.Pages, Checksum := freshChecksum f,
                    Policy := effectivePolicy f.Policy } = serializeFile f := by
  unfold serializeFile fileWriteBytesCore
  simp only
  rw [effectivePolicy_idem, fixPages_idem]

/-! ### Concrete fixtures -/

def sampleCookie : Cookie :=
  { Flags := 5, URL := [97], Name := [98], Path := [47], Value := [99],
    Expires := 978307200, Created := 978307201,
    unknown1 := [0, 0, 0, 0], unknown2 := [0, 0, 0, 0] }

def samplePage : Page := { Cookies := [sampleCookie] }

def policylessFile : File := { Pages := [samplePage], Checksum := 0, Policy := [] }

def policiedFile : File :=
  { Pages := [samplePage], Checksum := 0, Policy := [1, 2, 3] }

/-! ### Claim C1: serialize/parse round trip -/

/-- **C1** (amended): for every well-formed file all of whose pages hold at
least one cookie record, parsing the serialized bytes returns the file
with the checksum field freshly computed and the policy field holding the
blob actually written (the fixed default when the file's policy was
empty); and re-serializing that parse reproduces the serialized bytes
exactly. -/
theorem C1_bincookie_roundtrip (f : File) (hwf : f.wf)
    (hne : ∀ p ∈ f.Pages, p.Cookies ≠ []) :
    parseFile (serializeFile f) =
      .ok { Pages := f.Pages, Checksum := freshChecksum f,
            Policy := effectivePolicy f.Policy } ∧
    serializeFile { Pages := f.Pages, Checksum := freshChecksum f,
                    Policy := effectivePolicy f.Policy } = serializeFile f := by
  have hfix : fixPages f.Pages = f.Pages := fixPages_eq_self _ hne
  constructor
  · rw [parse_serializeFile f hwf, hfix]
  · have hb := serialize_roundtrip_bytes f
    rw [hfix] at hb
    exact hb

/-- **C1** witness: the round trip at a concrete one-page file. -/
theorem C1_bincookie_roundtrip_witness :
    parseFile (serializeFile policiedFile) =
      .ok { Pages := policiedFile.Pages, Checksum := freshChecksum policiedFile,
            Policy := effectivePolicy policiedFile.Policy } ∧
    serializeFile { Pages := policiedFile.Pages,
                    Checksum := freshChecksum policiedFile,
                    Policy := effectivePolicy policiedFile.Policy }
      = serializeFile policiedFile :=
  C1_bincookie_roundtrip policiedFile (by decide) (by decide)

/-- **C1** counterexample to the claim as stated: for a file with an empty
policy blob, the parse of its serialization is *not* equal to the file
with only the checksum refreshed — serialization substitutes the default
policy, which the parse then returns. -/
theorem C1_policy_substitution_cex :
    parseFile (serializeFile policylessFile) ≠
      .ok { Pages := policylessFile.Pages,
            Checksum := freshChecksum policylessFile,
            Policy := policylessFile.Policy } := by
  rw [parse_serializeFile policylessFile (by decide)]
  decide

/-! ### Claim C9: empty-page normalization -/

theorem fileWriteBytesCore_pageCount (pages : List Page) (pol : List Nat) :
    beU32 (fileWriteBytesCore pages pol) 4 = .ok (pages.length % 4294967296) := by
  have hg : fileWriteBytesCore pages pol = [99, 111, 111, 107] ++
      (be32 pages.length ++
       (sizeTable (pages.map pageWriteBytes) ++
        ((pages.map pageWriteBytes).flatten ++
         (be32 (checksumAcc 0 (pages.map pageWriteBytes)) ++
          ([7, 23, 32, 5] ++ (be32 (effectivePolicy pol).length ++
           effectivePolicy pol)))))) := by
    unfold fileWriteBytesCore
    simp [List.append_assoc]
  rw [hg, show (4 : Nat) = ([99, 111, 111, 107] : List Nat).length + 0 by simp,
    beU32_append, beU32_be32]

/-- **C9**: a file holding one empty page and one non-empty page serializes
with page count 1 (the empty page is dropped), and re-parsing yields
exactly the one non-empty page with its records. -/
theorem C9_empty_page_normalization (P : Page) (c0 : Nat) (pol : List Nat)
    (hwf : P.wf) (hne : P.Cookies ≠ []) (hpol : pol.length < 4294967296) :
    fixPages [⟨[]⟩, P] = [P] ∧
    beU32 (serializeFile ⟨[⟨[]⟩, P], c0, pol⟩) 4 = .ok 1 ∧
    parseFile (serializeFile ⟨[⟨[]⟩, P], c0, pol⟩) =
      .ok { Pages := [P], Checksum := freshChecksum ⟨[⟨[]⟩, P], c0, pol⟩,
            Policy := effectivePolicy pol } := by
  have hfix : fixPages [(⟨[]⟩ : Page), P] = [P] := by
    rcases hc : P.Cookies with _ | ⟨a, l⟩
    · exact absurd hc hne
    · simp [fixPages, List.filter, hc]
  refine ⟨hfix, ?_, ?_⟩
  · show beU32 (fileWriteBytesCore (fixPages [⟨[]⟩, P]) pol) 4 = .ok 1
    rw [hfix, fileWriteBytesCore_pageCount]
    norm_num
  · have hw : (⟨[⟨[]⟩, P], c0, pol⟩ : File).wf := by
      refine ⟨?_, by norm_num, hpol⟩
      intro q hq
      simp only [List.mem_cons, List.not_mem_nil, or_false] at hq
      rcases hq with rfl | rfl
      · exact ⟨by simp, by decide⟩
      · exact hwf
    have hp := parse_serializeFile ⟨[⟨[]⟩, P], c0, pol⟩ hw
    simpa [hfix] using hp

/-- **C9** witness at a concrete page. -/
theorem C9_empty_page_normalization_witness :
    fixPages [⟨[]⟩, samplePage] = [samplePage] ∧
    beU32 (serializeFile ⟨[⟨[]⟩, samplePage], 7, []⟩) 4 = .ok 1 ∧
    parseFile (serializeFile ⟨[⟨[]⟩, samplePage], 7, []⟩) =
      .ok { Pages := [samplePage],
            Checksum := freshChecksum ⟨[⟨[]⟩, samplePage], 7, []⟩,
            Policy := effectivePolicy [] } :=
  C9_empty_page_normalization samplePage 7 [] (by decide) (by decide) (by decide)

/-! ### Claim C8: checksum law -/

theorem sumStep4_spec (b : List Nat) :
    sumStep4 b = ∑ k ∈ Finset.range ((b.length + 3) / 4), byteAt b (4 * k) := by
  have hgen : ∀ (n : Nat) (l : List Nat), l.length ≤ n →
      sumStep4 l = ∑ k ∈ Finset.range ((l.length + 3) / 4), byteAt l (4 * k) := by
    intro n
    induction n with
    | zero =>
        intro l hl
        have : l = [] := List.length_eq_zero.mp (by omega)
        subst this
        rfl
    | succ n ih =>
        intro l hl
        rcases l with _ | ⟨a, _ | ⟨x, _ | ⟨y, _ | ⟨z, rest⟩⟩⟩⟩
        · rfl
        · simp [sumStep4, byteAt]
        · simp [sumStep4, byteAt]
        · simp [sumStep4, byteAt]
        · rw [show sumStep4 (a :: x :: y :: z :: rest) = a + sumStep4 rest
            from rfl]
          rw [ih rest (by simp at hl ⊢; omega)]
          have hq : ((a :: x :: y :: z :: rest).length + 3) / 4 =
              (rest.length + 3) / 4 + 1 := by
            simp
            omega
          rw [hq, Finset.sum_range_succ']
          have hsh : ∀ k : Nat,
              byteAt (a :: x :: y :: z :: rest) (4 * (k + 1)) =
              byteAt rest (4 * k) := by
            intro k
            rw [show 4 * (k + 1) = 4 * k + 3 + 1 by ring, byteAt_cons_succ,
              show 4 * k + 3 = 4 * k + 2 + 1 by ring, byteAt_cons_succ,
              show 4 * k + 2 = 4 * k + 1 + 1 by ring, byteAt_cons_succ,
              byteAt_cons_succ]
          rw [Finset.sum_congr rfl fun k _ => hsh k]
          rw [show byteAt (a :: x :: y :: z :: rest) (4 * 0) = a from rfl]
          omega
  exact hgen b.length b le_rfl

theorem checksumAcc_spec (bs : List (List Nat)) :
    ∀ acc : Nat, acc < 4294967296 →
    checksumAcc acc bs = (acc + (bs.map pageChecksum).sum) % 4294967296 := by
  induction bs with
  | nil =>
      intro acc h
      simp [checksumAcc, Nat.mod_eq_of_lt h]
  | cons b bs ih =>
      intro acc h
      rw [show checksumAcc acc (b :: bs) =
        checksumAcc ((acc + pageChecksum b) % 4294967296) bs from rfl]
      rw [ih _ (Nat.mod_lt _ (by norm_num))]
      rw [Nat.mod_add_mod, List.map_cons, List.sum_cons]
      have hx : acc + pageChecksum b + (bs.map pageChecksum).sum =
          acc + (pageChecksum b + (bs.map pageChecksum).sum) := by omega
      rw [hx]

/-- **C8**: a serialized page's checksum is the (`uint32`) sum of its bytes
at offsets 0, 4, 8, …, and the file checksum stored by serialization is
the (`uint32`) sum of the page checksums of the serialized non-empty
pages in final order. -/
theorem C8_checksum_law :
    (∀ b : List Nat, pageChecksum b =
      (∑ k ∈ Finset.range ((b.length + 3) / 4), byteAt b (4 * k))
        % 4294967296) ∧
    (∀ f : File, freshChecksum f =
      ((fixPages f.Pages).map fun p => pageChecksum (pageWriteBytes p)).sum
        % 4294967296) := by
  constructor
  · intro b
    unfold pageChecksum
    rw [sumStep4_spec]
  · intro f
    unfold freshChecksum
    rw [checksumAcc_spec _ 0 (by norm_num)]
    rw [Nat.zero_add, List.map_map]
    rfl

/-! ### Claim C3: record size field vs bytes consumed -/

/-- Total little-endian `uint32` read (no bounds reporting), used only by
the spec-side occupancy measure below. -/
def leU32D (d : List Nat) (pos : Nat) : Nat :=
  byteAt d pos + 256 * byteAt d (pos + 1) + 65536 * byteAt d (pos + 2)
    + 16777216 * byteAt d (pos + 3)

/-- Modelled from the spec: "the number of bytes the record actually
occupies (the bytes consumed by its fixed fields and its NUL-terminated
strings)" — 56 fixed bytes, extended by each string from its recorded
offset through its NUL terminator. This is a spec-side measure (the code
has no such function), used to exhibit the mismatch the claim is about. -/
def specRecordOccupied (d : List Nat) : Nat :=
  List.foldr max 56
    ([leU32D d 16, leU32D d 20, leU32D d 24, leU32D d 28].map
      fun off => off + (nulString (d.drop off)).length + 1)

/-- **C3** (amended): the record size field is used only to delimit the
record's byte range; the parser never compares it with the bytes it
actually consumes, and a record whose declared size exceeds the consumed
bytes parses successfully. -/
theorem C3_record_size_not_checked (c : Cookie) (hwf : c.wf)
    (junk : List Nat) :
    leU32 (cookieWriteBytes c ++ junk) 0 =
      .ok (60 + c.URL.length + c.Name.length + c.Path.length
           + c.Value.length) ∧
    (cookieWriteBytes c ++ junk).length =
      60 + c.URL.length + c.Name.length + c.Path.length + c.Value.length
        + junk.length ∧
    parseCookie (cookieWriteBytes c ++ junk) = .ok c := by
  obtain ⟨hfl, hu, hn, hp, hv, hu1, hu1b, hu2, hu2b, he, hc, hsz⟩ := hwf
  refine ⟨?_, ?_, parseCookie_write c
    ⟨hfl, hu, hn, hp, hv, hu1, hu1b, hu2, hu2b, he, hc, hsz⟩ junk⟩
  · have hg : cookieWriteBytes c ++ junk =
        le32 (60 + c.URL.length + c.Name.length + c.Path.length
          + c.Value.length) ++
        (c.unknown1 ++ le32 c.Flags ++ c.unknown2 ++ le32 56 ++
         le32 (57 + c.URL.length) ++
         le32 (58 + c.URL.length + c.Name.length) ++
         le32 (59 + c.URL.length + c.Name.length + c.Path.length) ++
         List.replicate 8 0 ++
         le64 (f64bitsOfInt (wrapInt64 (c.Expires - macEpoch))) ++
         le64 (f64bitsOfInt (wrapInt64 (c.Created - macEpoch))) ++
         (c.URL ++ [0] ++ (c.Name ++ [0] ++ (c.Path ++ [0] ++
          (c.Value ++ [0])))) ++ junk) := by
      simp [cookieWriteBytes, List.append_assoc]
    rw [hg, leU32_le32, Nat.mod_eq_of_lt (by omega)]
  · rw [List.length_append, cookieWriteBytes_length c hu1 hu2]

/-- **C3** witness: a record with three slack bytes appended still parses. -/
theorem C3_record_size_not_checked_witness :
    leU32 (cookieWriteBytes sampleCookie ++ [9, 9, 9]) 0 =
      .ok (60 + sampleCookie.URL.length + sampleCookie.Name.length
           + sampleCookie.Path.length + sampleCookie.Value.length) ∧
    (cookieWriteBytes sampleCookie ++ [9, 9, 9]).length =
      60 + sampleCookie.URL.length + sampleCookie.Name.length
        + sampleCookie.Path.length + sampleCookie.Value.length + 3 ∧
    parseCookie (cookieWriteBytes sampleCookie ++ [9, 9, 9])
      = .ok sampleCookie := by
  have h := C3_record_size_not_checked sampleCookie (by decide) [9, 9, 9]
  simpa using h

/-- A record declaring size 61 while its fields and strings occupy only 57
bytes, inside a well-formed page and file. -/
def slackRecord : List Nat :=
  le32 61 ++ [0, 0, 0, 0] ++ le32 0 ++ [0, 0, 0, 0] ++
  le32 56 ++ le32 56 ++ le32 56 ++ le32 56 ++
  List.replicate 8 0 ++ le64 0 ++ le64 0 ++ [0] ++ [9, 9, 9, 9]

def slackFileBytes : List Nat :=
  [99, 111, 111, 107] ++ be32 1 ++ be32 77 ++
  ([0, 0, 1, 0] ++ le32 1 ++ le32 16 ++ le32 0 ++ slackRecord) ++
  be32 0 ++ [7, 23, 32, 5]

/-- The file `ParseFile` returns for `slackFileBytes`. -/
def slackParsedFile : File :=
  { Pages := [⟨[⟨0, [], [], [], [], 978307200, 978307200,
                [0, 0, 0, 0], [0, 0, 0, 0]⟩]⟩],
    Checksum := 0, Policy := [] }

/-- **C3** counterexample to the claim as stated: a container file whose
only record's size field (61) differs from the bytes the record occupies
(57), yet `ParseFile` succeeds instead of returning a `FormatError`. -/
theorem C3_size_mismatch_parses_cex :
    leU32 slackRecord 0 = .ok 61 ∧
    specRecordOccupied slackRecord = 57 ∧
    parseFile slackFileBytes = .ok slackParsedFile := by
  decide

/-! ### Claim C7: parse totality -/

/-- A file whose declared policy length (100) overruns the remaining
buffer: Go slices `data[cur:end]` with `end > len(data)` and panics. -/
def policyOverrunBytes : List Nat :=
  [99, 111, 111, 107] ++ be32 0 ++ be32 0 ++ [7, 23, 32, 5] ++ be32 100

/-- A record whose URL string offset (1000) points past the record's end:
Go slices `data[urlPos:]` with `urlPos > len(data)` and panics. -/
def badOffsetFileBytes : List Nat :=
  [99, 111, 111, 107] ++ be32 1 ++ be32 72 ++
  ([0, 0, 1, 0] ++ le32 1 ++ le32 16 ++ le32 0 ++
   (le32 56 ++ [0, 0, 0, 0] ++ le32 0 ++ [0, 0, 0, 0] ++
    le32 1000 ++ le32 0 ++ le32 0 ++ le32 0 ++
    List.replicate 8 0 ++ le64 0 ++ le64 0)) ++
  be32 0 ++ [7, 23, 32, 5]

/-- **C7**: container-file parsing is *not* total — on a truncated policy
blob and on a record whose string offset points past the record's end,
`ParseFile` panics (out-of-bounds slice) instead of returning a
`FormatError`. -/
theorem C7_parse_crashes :
    parseFile policyOverrunBytes = .panics "slice bounds out of range" ∧
    parseFile badOffsetFileBytes = .panics "slice bounds out of range" := by
  decide

/-! ## chromedb value cipher (`crypt.go`)

The AES-128 block cipher comes from Go's standard library (outside this
repository); for each 16-byte key, `crypto/aes` provides a pair of
mutually inverse, length-preserving maps on 16-byte blocks. The theorems
are parametrized by such a pair `E`/`D`. Everything else — the `v10` tag,
the fixed space IV, CBC chaining, padding, and the padding check — is
embedded from `crypt.go`. -/

def versionTagBytes : List Nat := [118, 49, 48]

def ivBytes : List Nat := List.replicate 16 32

def padLength (n : Nat) : Nat := if n % 16 = 0 then 16 else 16 - n % 16

def xorBytes (a b : List Nat) : List Nat :=
  List.zipWith (fun x y => x ^^^ y) a b

/-- CBC encryption of `n` 16-byte blocks (`cipher.NewCBCEncrypter` +
`CryptBlocks`): each block is XORed with the previous ciphertext block
(initially the IV) and passed through the block cipher. -/
def cbcEncryptN (E : List Nat → List Nat) : Nat → List Nat → List Nat → List Nat
  | 0, _, _ => []
  | n + 1, prev, pt =>
    E (xorBytes (pt.take 16) prev) ++
      cbcEncryptN E n (E (xorBytes (pt.take 16) prev)) (pt.drop 16)

def cbcEncrypt (E : List Nat → List Nat) (iv pt : List Nat) : List Nat :=
  cbcEncryptN E (pt.length / 16) iv pt

/-- CBC decryption of `n` 16-byte blocks. -/
def cbcDecryptN (D : List Nat → List Nat) : Nat → List Nat → List Nat → List Nat
  | 0, _, _ => []
  | n + 1, prev, ct =>
    xorBytes (D (ct.take 16)) prev ++ cbcDecryptN D n (ct.take 16) (ct.drop 16)

def cbcDecrypt (D : List Nat → List Nat) (iv ct : List Nat) : List Nat :=
  cbcDecryptN D (ct.length / 16) iv ct

/-- `encryptValue`: pad to a positive multiple of 16 with `p` bytes of
value `p`, CBC-encrypt with the fixed IV, and prefix the clear `v10` tag. -/
def encryptValue (E : List Nat → List Nat) (val : List Nat) : List Nat :=
  versionTagBytes ++ cbcEncrypt E ivBytes
    (val ++ List.replicate (padLength val.length) (padLength val.length))

/-- `checkValue`: validate and strip the padding of a decrypted value.
`val[len(val)-1]` on an empty value is a Go index panic. -/
def checkValue (val : List Nat) : PRes (List Nat) :=
  match val.getLast? with
  | none => .panics "index out of range"
  | some np =>
    if np < 1 ∨ 16 < np ∨ val.length < np then .ferr "invalid decryption key"
    else if (val.drop (val.length - np)).all (fun b => b = np) then
      .ok (val.take (val.length - np))
    else .ferr "invalid decryption key"

/-- `decryptValue`: require the `v10` prefix, CBC-decrypt the remainder
(`CryptBlocks` panics when it is not a whole number of blocks), and check
the padding. -/
def decryptValue (D : List Nat → List Nat) (pkt : List Nat) : PRes (List Nat) :=
  if ¬ List.isPrefixOf versionTagBytes pkt then
    .ferr "invalid encryped value prefix"
  else if (pkt.drop 3).length % 16 ≠ 0 then
    .panics "crypto: input not full blocks"
  else checkValue (cbcDecrypt D ivBytes (pkt.drop 3))

/-! ### CBC inverse and padding lemmas -/

theorem xorBytes_length (a b : List Nat) :
    (xorBytes a b).length = min a.length b.length := by
  simp [xorBytes]

theorem xorBytes_cancel (a b : List Nat) (h : a.length = b.length) :
    xorBytes (xorBytes a b) b = a := by
  induction a generalizing b with
  | nil => simp [xorBytes]
  | cons x a ih =>
      cases b with
      | nil => simp at h
      | cons y b =>
          simp only [xorBytes, List.zipWith_cons_cons]
          rw [show (x ^^^ y) ^^^ y = x from by
            rw [Nat.xor_assoc, Nat.xor_self, Nat.xor_zero]]
          have hx := ih b (by simpa using h)
          simpa [xorBytes] using hx

theorem cbcEncryptN_length (E : List Nat → List Nat)
    (hlen : ∀ b : List Nat, b.length = 16 → (E b).length = 16) :
    ∀ (n : Nat) (prev pt : List Nat), prev.length = 16 →
      pt.length = 16 * n → (cbcEncryptN E n prev pt).length = 16 * n := by
  intro n
  induction n with
  | zero => intro prev pt _ _; rfl
  | succ n ih =>
      intro prev pt hprev hpt
      have htk : (pt.take 16).length = 16 := by
        rw [List.length_take]
        omega
      have hblk : (E (xorBytes (pt.take 16) prev)).length = 16 := by
        apply hlen
        rw [xorBytes_length, htk, hprev]
        exact Nat.min_self 16
      rw [cbcEncryptN, List.length_append, hblk,
        ih _ (pt.drop 16) hblk (by rw [List.length_drop]; omega)]
      ring

theorem cbc_roundtrip (E D : List Nat → List Nat)
    (hED : ∀ b : List Nat, b.length = 16 → D (E b) = b)
    (hlen : ∀ b : List Nat, b.length = 16 → (E b).length = 16) :
    ∀ (n : Nat) (prev pt : List Nat), prev.length = 16 →
      pt.length = 16 * n →
      cbcDecryptN D n prev (cbcEncryptN E n prev pt) = pt := by
  intro n
  induction n with
  | zero =>
      intro prev pt _ hpt
      have : pt = [] := List.length_eq_zero.mp (by omega)
      subst this
      rfl
  | succ n ih =>
      intro prev pt hprev hpt
      have htk : (pt.take 16).length = 16 := by
        rw [List.length_take]
        omega
      have hxl : (xorBytes (pt.take 16) prev).length = 16 := by
        rw [xorBytes_length, htk, hprev]
        exact Nat.min_self 16
      have hblk : (E (xorBytes (pt.take 16) prev)).length = 16 := hlen _ hxl
      rw [cbcEncryptN, cbcDecryptN,
        List.take_left' hblk, List.drop_left' hblk]
      rw [hED _ hxl, xorBytes_cancel _ _ (by rw [htk, hprev])]
      rw [ih _ (pt.drop 16) hblk (by rw [List.length_drop]; omega)]
      exact List.take_append_drop 16 pt

theorem padLength_bounds (n : Nat) :
    1 ≤ padLength n ∧ padLength n ≤ 16 ∧ (n + padLength n) % 16 = 0 := by
  unfold padLength
  split <;> omega

theorem getLast?_append_replicate (xs : List Nat) (v k : Nat) :
    (xs ++ List.replicate (k + 1) v).getLast? = some v := by
  rw [List.getLast?_append, List.replicate_succ', List.getLast?_append]
  rfl

theorem all_replicate (n v : Nat) :
    (List.replicate n v).all (fun b => b = v) = true := by
  induction n with
  | zero => rfl
  | succ n ih => simp [List.replicate_succ, ih]

/-- Decryption inverts encryption for any plaintext, under a correct pair
of block maps: the padding is stripped and exactly the plaintext returns. -/
theorem decrypt_encrypt_eq (E D : List Nat → List Nat)
    (hED : ∀ b : List Nat, b.length = 16 → D (E b) = b)
    (hlen : ∀ b : List Nat, b.length = 16 → (E b).length = 16)
    (val : List Nat) :
    decryptValue D (encryptValue E val) = .ok val := by
  obtain ⟨hp1, hp16, hpm⟩ := padLength_bounds val.length
  set p := padLength val.length with hpdef
  set padded := val ++ List.replicate p p with hpadded
  have hplen : padded.length = val.length + p := by
    rw [hpadded]
    simp
  set m := (val.length + p) / 16 with hm
  have hpl16 : padded.length = 16 * m := by
    rw [hplen, hm]
    omega
  have hct : cbcEncrypt E ivBytes padded = cbcEncryptN E m ivBytes padded := by
    rw [cbcEncrypt, hpl16]
    congr 1
    omega
  have hctlen : (cbcEncryptN E m ivBytes padded).length = 16 * m :=
    cbcEncryptN_length E hlen m ivBytes padded (by simp [ivBytes]) hpl16
  unfold decryptValue encryptValue
  rw [if_neg (by simp [versionTagBytes, List.isPrefixOf, List.cons_append])]
  have hdrop3 : (versionTagBytes ++ cbcEncrypt E ivBytes padded).drop 3 =
      cbcEncrypt E ivBytes padded := List.drop_left' (by rfl)
  rw [hdrop3, hct]
  rw [if_neg (by rw [hctlen]; omega)]
  have hdec : cbcDecrypt D ivBytes (cbcEncryptN E m ivBytes padded)
      = padded := by
    rw [cbcDecrypt, hctlen, Nat.mul_div_cancel_left m (by norm_num)]
    exact cbc_roundtrip E D hED hlen m ivBytes padded (by simp [ivBytes])
      hpl16
  rw [hdec]
  have hlast : padded.getLast? = some p := by
    rw [hpadded, show p = p - 1 + 1 by omega]
    rw [getLast?_append_replicate]
  have hdropped : padded.drop (padded.length - p) = List.replicate p p := by
    rw [hpadded, hplen, show val.length + p - p = val.length by omega]
    exact List.drop_left' rfl
  have htake : padded.take (padded.length - p) = val := by
    rw [hpadded, hplen, show val.length + p - p = val.length by omega]
    exact List.take_left' rfl
  simp only [checkValue, hlast]
  rw [if_neg (by omega), hdropped, if_pos (all_replicate p p), htake]

/-! ### Claim C2: padding law and encrypt/decrypt round trip -/

/-- **C2**: `encryptValue` appends `p = padLength n` bytes of value `p`
(`p = 16` when `16 ∣ n`, else `16 - n % 16`, so `1 ≤ p ≤ 16` and
`(n+p) % 16 = 0`), prefixes the clear 3-byte `v10` tag, and decryption
with the matching block maps returns exactly the plaintext. -/
theorem C2_padding_law (E D : List Nat → List Nat)
    (hED : ∀ b : List Nat, b.length = 16 → D (E b) = b)
    (hlen : ∀ b : List Nat, b.length = 16 → (E b).length = 16)
    (val : List Nat) :
    (1 ≤ padLength val.length ∧ padLength val.length ≤ 16 ∧
     (val.length + padLength val.length) % 16 = 0 ∧
     padLength val.length =
       if val.length % 16 = 0 then 16 else 16 - val.length % 16) ∧
    encryptValue E val = versionTagBytes ++ cbcEncrypt E ivBytes
      (val ++ List.replicate (padLength val.length)
        (padLength val.length)) ∧
    decryptValue D (encryptValue E val) = .ok val := by
  obtain ⟨h1, h16, hm⟩ := padLength_bounds val.length
  exact ⟨⟨h1, h16, hm, rfl⟩, rfl, decrypt_encrypt_eq E D hED hlen val⟩

/-- **C2** witness: the identity block maps (a legitimate inverse pair) at
a concrete 3-byte plaintext. -/
theorem C2_padding_law_witness :
    (1 ≤ padLength ([1, 2, 3] : List Nat).length ∧
     padLength ([1, 2, 3] : List Nat).length ≤ 16 ∧
     (([1, 2, 3] : List Nat).length +
       padLength ([1, 2, 3] : List Nat).length) % 16 = 0 ∧
     padLength ([1, 2, 3] : List Nat).length =
       if ([1, 2, 3] : List Nat).length % 16 = 0 then 16
       else 16 - ([1, 2, 3] : List Nat).length % 16) ∧
    encryptValue (fun b => b) [1, 2, 3] = versionTagBytes ++
      cbcEncrypt (fun b => b) ivBytes
      ([1, 2, 3] ++ List.replicate (padLength ([1, 2, 3] : List Nat).length)
        (padLength ([1, 2, 3] : List Nat).length)) ∧
    decryptValue (fun b => b) (encryptValue (fun b => b) [1, 2, 3])
      = .ok [1, 2, 3] :=
  C2_padding_law (fun b => b) (fun b => b) (fun _ _ => rfl) (fun _ h => h)
    [1, 2, 3]

/-! ### Claim C6: padding-oracle rejection -/

/-- **C6** counterexample to the claim as stated: a packet that is exactly
the tag `v10` (empty encrypted portion) makes `decryptValue` panic
(`val[len(val)-1]` on an empty slice), and a packet whose post-tag
portion is not a multiple of 16 bytes makes `CryptBlocks` panic — neither
returns a `CryptoError`. -/
theorem C6_decrypt_panics_cex :
    decryptValue (fun b => b) [118, 49, 48] = .panics "index out of range" ∧
    decryptValue (fun b => b) [118, 49, 48, 1]
      = .panics "crypto: input not full blocks" :=
  ⟨rfl, rfl⟩

/-- **C6** (amended): for packets without the `v10` prefix `decryptValue`
returns a `CryptoError`; for packets whose post-tag portion is a
non-empty whole number of 16-byte blocks, if the decrypted bytes end in a
value outside `[1,16]` or the trailing bytes are inconsistent, it returns
a `CryptoError` — never a plaintext-shaped success. Packets with an empty
or non-whole-block post-tag portion panic instead (see the
counterexample). -/
theorem C6_padding_rejection (D : List Nat → List Nat) (pkt : List Nat) :
    (¬ List.isPrefixOf versionTagBytes pkt = true →
      decryptValue D pkt = .ferr "invalid encryped value prefix") ∧
    (∀ np : Nat, List.isPrefixOf versionTagBytes pkt = true →
      pkt.drop 3 ≠ [] → (pkt.drop 3).length % 16 = 0 →
      (cbcDecrypt D ivBytes (pkt.drop 3)).getLast? = some np →
      (np < 1 ∨ 16 < np ∨
        ¬ ((cbcDecrypt D ivBytes (pkt.drop 3)).drop
             ((cbcDecrypt D ivBytes (pkt.drop 3)).length - np)).all
            (fun b => b = np) = true) →
      decryptValue D pkt = .ferr "invalid decryption key") := by
  constructor
  · intro hpre
    unfold decryptValue
    rw [if_pos (by simpa using hpre)]
  · intro np hpre _ hmod hlast hbad
    unfold decryptValue
    rw [if_neg (by simpa using hpre), if_neg (by omega)]
    simp only [checkValue, hlast]
    by_cases hrange : np < 1 ∨ 16 < np ∨
        (cbcDecrypt D ivBytes (pkt.drop 3)).length < np
    · rw [if_pos hrange]
    · rw [if_neg hrange]
      have hnotall : ¬ ((cbcDecrypt D ivBytes (pkt.drop 3)).drop
          ((cbcDecrypt D ivBytes (pkt.drop 3)).length - np)).all
          (fun b => b = np) = true := by
        rcases hbad with h | h | h
        · omega
        · omega
        · exact h
      rw [if_neg hnotall]

/-- **C6** witness: with the identity block maps, a `v10` packet of 16
zero bytes decrypts to the IV (last byte 32 ∉ [1,16]) and is rejected. -/
theorem C6_padding_rejection_witness :
    decryptValue (fun b => b) (versionTagBytes ++ List.replicate 16 0)
      = .ferr "invalid decryption key" :=
  (C6_padding_rejection (fun b => b)
    (versionTagBytes ++ List.replicate 16 0)).2 32 (by decide) (by decide)
    (by decide) (by decide) (by decide)

/-! ### Claim C4: domain-digest binding -/

/-- **C4** counterexample to the claim as stated: decryption succeeds on a
payload only 2 bytes long — too short to begin with any 32-byte SHA-256
digest of the owning domain — so no digest verification is performed on
values read through the store. -/
theorem C4_no_domain_digest_cex :
    decryptValue (fun b => b) (encryptValue (fun b => b) [104, 105])
      = .ok [104, 105] ∧ ([104, 105] : List Nat).length < 32 := by
  exact ⟨by decide, by decide⟩

/-- **C4** (amended): the implementation supports only the legacy schema:
`decryptValue` performs no SHA-256 domain-prefix verification and returns
the whole depadded plaintext for every value, in particular for payloads
shorter than 32 bytes, which cannot carry a digest. -/
theorem C4_no_domain_verification (E D : List Nat → List Nat)
    (hED : ∀ b : List Nat, b.length = 16 → D (E b) = b)
    (hlen : ∀ b : List Nat, b.length = 16 → (E b).length = 16)
    (val : List Nat) (hshort : val.length < 32) :
    decryptValue D (encryptValue E val) = .ok val :=
  decrypt_encrypt_eq E D hED hlen val

/-- **C4** witness at a 2-byte plaintext with the identity block maps. -/
theorem C4_no_domain_verification_witness :
    decryptValue (fun b => b) (encryptValue (fun b => b) [104, 105])
      = .ok [104, 105] :=
  C4_no_domain_verification (fun b => b) (fun b => b) (fun _ _ => rfl)
    (fun _ h => h) [104, 105] (by decide)

/-! ## bplist: binary property-list visitor parser (`package bplist`)

The `Handler` interface becomes an event-labelled transition function
`σ → BpEvent → Except ε σ`; `Parse` becomes a fuelled run that returns
the list of events delivered to the handler together with the outcome.
Fuel models Go's unguarded native recursion through object references:
any terminating Go run is reproduced for every sufficiently large fuel,
and `.nofuel` marks runs that would recurse deeper (including the
infinite recursion a cyclic reference graph causes in Go). `float64`
payloads are carried as their IEEE-754 bit patterns. -/

/-- One visitor notification (`Handler` method call with its payload). -/
inductive BpEvent where
  | version (s : List Nat)
  | nullEv
  | boolEv (b : Bool)
  | intEv (v : Int)
  | floatEv (bits : Nat)
  | timeEv (sec : Int)
  | bytesEv (b : List Nat)
  | stringEv (s : List Nat)
  | uidEv (b : List Nat)
  | beginArray (n : Int)
  | endArray
  | beginDict (n : Int)
  | endDict
  | beginSet (n : Int)
  | endSet
deriving DecidableEq, Repr

/-- Outcome of a parser computation: handler state, a handler-reported
error, a format error, a Go panic, or fuel exhaustion (model artifact for
unbounded recursion). -/
inductive BpOut (σ ε : Type) where
  | ok (s : σ)
  | herr (e : ε)
  | ferr (m : String)
  | panics (m : String)
  | nofuel
deriving DecidableEq

/-- A parser computation: the events delivered, and the outcome. -/
abbrev BpM (σ ε : Type) : Type := List BpEvent × BpOut σ ε

def bpPure {σ ε : Type} (s : σ) : BpM σ ε := ([], .ok s)

def bpFerr {σ ε : Type} (m : String) : BpM σ ε := ([], .ferr m)

def bpPanics {σ ε : Type} (m : String) : BpM σ ε := ([], .panics m)

/-- Deliver one event to the handler. The callback is invoked either way;
its error aborts the computation. -/
def bpEmit {σ ε : Type} (h : σ → BpEvent → Except ε σ) (s : σ)
    (ev : BpEvent) : BpM σ ε :=
  match h s ev with
  | .ok s2 => ([ev], .ok s2)
  | .error e => ([ev], .herr e)

/-- Sequencing: later events follow earlier ones; any non-`ok` outcome
short-circuits. -/
def bpSeq {σ ε : Type} (r : BpM σ ε) (k : σ → BpM σ ε) : BpM σ ε :=
  match r with
  | (evs, .ok s) => (evs ++ (k s).1, (k s).2)
  | other => other

/-- `parseInt`: big-endian accumulation `v = v<<8 | b` in a Go `int64`. -/
def bparseInt (bytes : List Nat) : Int :=
  bytes.foldl (fun v b => wrapInt64 (v * 256 + b)) 0

/-- `uint64(v)` for a Go `int64` value `v`. -/
def intToUInt64 (v : Int) : Nat := (v % 18446744073709551616).toNat

/-- Total big-endian 8-byte read (`binary.BigEndian.Uint64`); callers
guarantee bounds. -/
def beU64D (d : List Nat) (pos : Nat) : Nat :=
  byteAt d pos * 72057594037927936 + byteAt d (pos + 1) * 281474976710656 +
  byteAt d (pos + 2) * 1099511627776 + byteAt d (pos + 3) * 4294967296 +
  byteAt d (pos + 4) * 16777216 + byteAt d (pos + 5) * 65536 +
  byteAt d (pos + 6) * 256 + byteAt d (pos + 7)

/-- `sizeAndShift(tag, data[off+1:])`: the low nibble is the size unless
it is 15, in which case a tag-encoded integer follows. Both reads can
panic on truncated input, as the Go slicing does. -/
def sizeAndShift (d : List Nat) (off tagv : Nat) : PRes (Int × Nat) :=
  if tagv % 16 = 15 then
    if d.length ≤ off + 1 then .panics "index out of range"
    else if d.length < off + 2 + 2 ^ (byteAt d (off + 1) % 16) then
      .panics "slice bounds out of range"
    else .ok (bparseInt ((d.drop (off + 2)).take (2 ^ (byteAt d (off + 1) % 16))),
              1 + 2 ^ (byteAt d (off + 1) % 16))
  else .ok ((tagv % 16 : Nat), 0)

/-- Read one object reference of `refB` bytes at `start`
(`parseInt(data[start : start+refBytes])`, panicking out of bounds). -/
def readRef (d : List Nat) (refB : Nat) (start : Int) : PRes Int :=
  if start < 0 ∨ (d.length : Int) < start + refB then
    .panics "slice bounds out of range"
  else .ok (bparseInt ((d.drop start.toNat).take refB))

/-- The element loop of the array/set cases, parametrized by the
recursive object parser `po` (the next-smaller-fuel instance). -/
def bpLoop {σ ε : Type} (po : σ → Int → BpM σ ε) (d : List Nat)
    (refB : Nat) : Nat → Int → σ → BpM σ ε
  | 0, _, s => bpPure s
  | k + 1, start, s =>
    match readRef d refB start with
    | .ferr m => bpFerr m
    | .panics m => bpPanics m
    | .ok ref =>
        bpSeq (po s ref) fun s2 =>
          bpLoop po d refB k (wrapInt64 (start + refB)) s2

/-- The key/value loop of the dictionary case. -/
def bpDictLoop {σ ε : Type} (po : σ → Int → BpM σ ε) (d : List Nat)
    (refB : Nat) : Nat → Int → Int → σ → BpM σ ε
  | 0, _, _, s => bpPure s
  | k + 1, keyStart, valStart, s =>
    match readRef d refB keyStart with
    | .ferr m => bpFerr m
    | .panics m => bpPanics m
    | .ok kref =>
        bpSeq (po s kref) fun s2 =>
          match readRef d refB valStart with
          | .ferr m => bpFerr m
          | .panics m => bpPanics m
          | .ok vref =>
              bpSeq (po s2 vref) fun s3 =>
                bpDictLoop po d refB k (wrapInt64 (keyStart + refB))
                  (wrapInt64 (valStart + refB)) s3

/-- `parseObj`: dispatch on the tag byte of the object at `offsets[id]`.
Tags `0x6_` (Unicode string) and `0x8_` (UID) fall through to the
`unrecognized tag` error exactly as the Go `switch` does (their cases are
empty `TODO` bodies). -/
def parseObj {σ ε : Type} (d : List Nat) (refB : Nat) (offsets : List Int)
    (h : σ → BpEvent → Except ε σ) : Nat → σ → Int → BpM σ ε
  | 0, _, _ => ([], .nofuel)
  | fuel + 1, s, id =>
    if id < 0 ∨ (offsets.length : Int) ≤ id then bpPanics "index out of range"
    else
      let off := (offsets.get? id.toNat).getD 0
      if off < 0 ∨ (d.length : Int) ≤ off then bpPanics "index out of range"
      else
        let offN := off.toNat
        let tagv := byteAt d offN
        match tagv / 16 with
        | 0 =>
          match tagv % 16 with
          | 0 => bpEmit h s .nullEv
          | 8 => bpEmit h s (.boolEv false)
          | 9 => bpEmit h s (.boolEv true)
          | _ => bpFerr "unrecognized tag"
        | 1 =>
          if d.length < offN + 1 + 2 ^ (tagv % 16) then
            bpPanics "slice bounds out of range"
          else bpEmit h s (.intEv (bparseInt
            ((d.drop (offN + 1)).take (2 ^ (tagv % 16)))))
        | 2 =>
          if d.length < offN + 1 + 2 ^ (tagv % 16) then
            bpPanics "slice bounds out of range"
          else bpEmit h s (.floatEv (intToUInt64 (bparseInt
            ((d.drop (offN + 1)).take (2 ^ (tagv % 16))))))
        | 3 =>
          if tagv % 16 = 3 then
            if d.length < offN + 9 then bpPanics "slice bounds out of range"
            else bpEmit h s (.timeEv (wrapInt64 (f64truncToInt
              (intToUInt64 (bparseInt ((d.drop (offN + 1)).take 8)))
              + 978307200)))
          else bpFerr "unrecognized tag"
        | 4 =>
          match sizeAndShift d offN tagv with
          | .ferr m => bpFerr m
          | .panics m => bpPanics m
          | .ok (size, shift) =>
              if wrapInt64 ((offN + 1 + shift : Nat) + size)
                   < ((offN + 1 + shift : Nat) : Int) ∨
                 (d.length : Int) < wrapInt64 ((offN + 1 + shift : Nat) + size)
              then bpPanics "slice bounds out of range"
              else bpEmit h s (.bytesEv ((d.drop (offN + 1 + shift)).take
                (wrapInt64 ((offN + 1 + shift : Nat) + size)
                  - (offN + 1 + shift : Nat)).toNat))
        | 5 =>
          match sizeAndShift d offN tagv with
          | .ferr m => bpFerr m
          | .panics m => bpPanics m
          | .ok (size, shift) =>
              if wrapInt64 ((offN + 1 + shift : Nat) + size)
                   < ((offN + 1 + shift : Nat) : Int) ∨
                 (d.length : Int) < wrapInt64 ((offN + 1 + shift : Nat) + size)
              then bpPanics "slice bounds out of range"
              else bpEmit h s (.stringEv ((d.drop (offN + 1 + shift)).take
                (wrapInt64 ((offN + 1 + shift : Nat) + size)
                  - (offN + 1 + shift : Nat)).toNat))
        | 10 =>
          match sizeAndShift d offN tagv with
          | .ferr m => bpFerr m
          | .panics m => bpPanics m
          | .ok (size, shift) =>
              bpSeq (bpEmit h s (.beginArray size)) fun s2 =>
                bpSeq (bpLoop (parseObj d refB offsets h fuel) d refB
                    size.toNat ((offN + 1 + shift : Nat) : Int) s2) fun s3 =>
                  bpEmit h s3 .endArray
        | 12 =>
          match sizeAndShift d offN tagv with
          | .ferr m => bpFerr m
          | .panics m => bpPanics m
          | .ok (size, shift) =>
              bpSeq (bpEmit h s (.beginSet size)) fun s2 =>
                bpSeq (bpLoop (parseObj d refB offsets h fuel) d refB
                    size.toNat ((offN + 1 + shift : Nat) : Int) s2) fun s3 =>
                  bpEmit h s3 .endSet
        | 13 =>
          match sizeAndShift d offN tagv with
          | .ferr m => bpFerr m
          | .panics m => bpPanics m
          | .ok (size, shift) =>
              bpSeq (bpEmit h s (.beginDict size)) fun s2 =>
                bpSeq (bpDictLoop (parseObj d refB offsets h fuel) d refB
                    size.toNat ((offN + 1 + shift : Nat) : Int)
                    (wrapInt64 ((offN + 1 + shift : Nat) +
                      wrapInt64 (size * refB))) s2) fun s3 =>
                  bpEmit h s3 .endDict
        | _ => bpFerr "unrecognized tag"

/-- The offset-table loop: `offsets[i] = parseInt(data[base : base+w])`
with `base = offsetTable + w*i` in wrapping `int` arithmetic. -/
def buildOffsets (d : List Nat) (offB : Nat) (tbl : Int) :
    Nat → Nat → PRes (List Int)
  | 0, _ => .ok []
  | k + 1, i =>
    if wrapInt64 (tbl + wrapInt64 (offB * i)) < 0 ∨
       (d.length : Int) < wrapInt64 (tbl + wrapInt64 (offB * i)) + offB then
      .panics "slice bounds out of range"
    else
      (buildOffsets d offB tbl k (i + 1)).bind fun rest =>
        .ok (bparseInt
          ((d.drop (wrapInt64 (tbl + wrapInt64 (offB * i))).toNat).take offB)
          :: rest)

/-- The part of `Parse` after the `Version` callback, with the decoded
trailer fields as parameters: the offset-table bound check, the offset
table construction, and the recursive walk from the root object. -/
def bplistAfterVersion {σ ε : Type} (fuel : Nat) (d : List Nat)
    (h : σ → BpEvent → Except ε σ) (offB refB : Nat)
    (numObjects rootObject offsetTableOff : Int) (s1 : σ) : BpM σ ε :=
  if (d.length : Int) - 32 <
      wrapInt64 (offsetTableOff + wrapInt64 (offB * numObjects)) then
    bpFerr "invalid offsets table"
  else if numObjects < 0 then bpPanics "makeslice: len out of range"
  else
    match buildOffsets d offB offsetTableOff numObjects.toNat 0 with
    | .ferr m => bpFerr m
    | .panics m => bpPanics m
    | .ok offsets => parseObj d refB offsets h fuel s1 rootObject

/-- `Parse(data, handler)`: magic and length checks, the eager `Version`
callback, trailer decoding, offset-table construction, and the recursive
walk from the root object. -/
def bplistParse {σ ε : Type} (fuel : Nat) (d : List Nat)
    (h : σ → BpEvent → Except ε σ) (s0 : σ) : BpM σ ε :=
  if ¬ List.isPrefixOf [98, 112, 108, 105, 115, 116] d then
    bpFerr "invalid magic number"
  else if d.length < 40 then bpFerr "invalid file structure"
  else
    bpSeq (bpEmit h s0 (.version ((d.drop 6).take 2))) fun s1 =>
      bplistAfterVersion fuel d h
        (byteAt d (d.length - 32 + 6)) (byteAt d (d.length - 32 + 7))
        (wrapInt64 (beU64D d (d.length - 32 + 8)))
        (wrapInt64 (beU64D d (d.length - 32 + 16)))
        (wrapInt64 (beU64D d (d.length - 32 + 24))) s1

/-! ### Visitor-abort semantics (claim C10) -/

/-- Fold a handler over a list of events, stopping at the first error —
the reference semantics of delivering notifications in order. -/
def runHandler {σ ε : Type} (h : σ → BpEvent → Except ε σ) :
    σ → List BpEvent → Except ε σ
  | s, [] => .ok s
  | s, ev :: evs =>
    match h s ev with
    | .ok s2 => runHandler h s2 evs
    | .error e => .error e

/-- The abort invariant: the computation's delivered events are exactly
consistent with its outcome — on `ok` the handler accepted all of them;
on a handler error the last delivered event is the erroring callback and
everything before it was accepted; on format errors, panics and fuel
exhaustion every delivered event was accepted (the failure is not a
callback). -/
def BpAborts {σ ε : Type} (h : σ → BpEvent → Except ε σ) (s0 : σ)
    (r : BpM σ ε) : Prop :=
  match r.2 with
  | .ok s1 => runHandler h s0 r.1 = .ok s1
  | .herr e => ∃ front lastev s1, r.1 = front ++ [lastev] ∧
      runHandler h s0 front = .ok s1 ∧ h s1 lastev = .error e
  | _ => ∃ s1, runHandler h s0 r.1 = .ok s1

theorem runHandler_append {σ ε : Type} (h : σ → BpEvent → Except ε σ)
    (s : σ) (a b : List BpEvent) (s' : σ)
    (ha : runHandler h s a = .ok s') :
    runHandler h s (a ++ b) = runHandler h s' b := by
  induction a generalizing s with
  | nil =>
      simp only [runHandler] at ha
      cases ha
      rfl
  | cons ev a ih =>
      simp only [runHandler, List.cons_append] at ha ⊢
      cases hev : h s ev with
      | ok s2 =>
          rw [hev] at ha
          exact ih s2 ha
      | error e =>
          rw [hev] at ha
          cases ha

theorem aborts_pure {σ ε : Type} (h : σ → BpEvent → Except ε σ) (s : σ) :
    BpAborts h s (bpPure (ε := ε) s) := rfl

theorem aborts_ferr {σ ε : Type} (h : σ → BpEvent → Except ε σ) (s : σ)
    (m : String) : BpAborts h s (bpFerr (σ := σ) (ε := ε) m) := ⟨s, rfl⟩

theorem aborts_panics {σ ε : Type} (h : σ → BpEvent → Except ε σ) (s : σ)
    (m : String) : BpAborts h s (bpPanics (σ := σ) (ε := ε) m) := ⟨s, rfl⟩

theorem aborts_nofuel {σ ε : Type} (h : σ → BpEvent → Except ε σ) (s : σ) :
    BpAborts h s (([], .nofuel) : BpM σ ε) := ⟨s, rfl⟩

theorem aborts_emit {σ ε : Type} (h : σ → BpEvent → Except ε σ) (s : σ)
    (ev : BpEvent) : BpAborts h s (bpEmit h s ev) := by
  unfold bpEmit BpAborts
  cases hev : h s ev with
  | ok s2 =>
      simp only
      show runHandler h s [ev] = .ok s2
      simp [runHandler, hev]
  | error e =>
      simp only
      exact ⟨[], ev, s, rfl, rfl, hev⟩

theorem aborts_seq {σ ε : Type} (h : σ → BpEvent → Except ε σ) (s : σ)
    (r : BpM σ ε) (k : σ → BpM σ ε)
    (hr : BpAborts h s r) (hk : ∀ s', BpAborts h s' (k s')) :
    BpAborts h s (bpSeq r k) := by
  obtain ⟨evs, out⟩ := r
  cases out with
  | ok s' =>
      have hrun : runHandler h s evs = .ok s' := hr
      show BpAborts h s (evs ++ (k s').1, (k s').2)
      have hks := hk s'
      unfold BpAborts at hks ⊢
      cases hout : (k s').2 with
      | ok s2 =>
          rw [hout] at hks
          simp only
          rw [runHandler_append h s evs _ s' hrun]
          exact hks
      | herr e =>
          rw [hout] at hks
          obtain ⟨front, lastev, s1, hsplit, hfr, hcall⟩ := hks
          refine ⟨evs ++ front, lastev, s1, ?_, ?_, hcall⟩
          · simp only [hsplit, List.append_assoc]
          · rw [runHandler_append h s evs front s' hrun]
            exact hfr
      | ferr m =>
          rw [hout] at hks
          obtain ⟨s1, hs1⟩ := hks
          exact ⟨s1, by rw [runHandler_append h s evs _ s' hrun]; exact hs1⟩
      | panics m =>
          rw [hout] at hks
          obtain ⟨s1, hs1⟩ := hks
          exact ⟨s1, by rw [runHandler_append h s evs _ s' hrun]; exact hs1⟩
      | nofuel =>
          rw [hout] at hks
          obtain ⟨s1, hs1⟩ := hks
          exact ⟨s1, by rw [runHandler_append h s evs _ s' hrun]; exact hs1⟩
  | herr e => exact hr
  | ferr m => exact hr
  | panics m => exact hr
  | nofuel => exact hr

theorem bpLoop_aborts {σ ε : Type} (h : σ → BpEvent → Except ε σ)
    (po : σ → Int → BpM σ ε) (d : List Nat) (refB : Nat)
    (hpo : ∀ s id, BpAborts h s (po s id)) :
    ∀ (k : Nat) (start : Int) (s : σ),
      BpAborts h s (bpLoop po d refB k start s) := by
  intro k
  induction k with
  | zero => intro start s; exact aborts_pure h s
  | succ k ih =>
      intro start s
      rw [bpLoop]
      cases readRef d refB start with
      | ferr m => exact aborts_ferr h s m
      | panics m => exact aborts_panics h s m
      | ok ref => exact aborts_seq h s _ _ (hpo s ref) fun s2 => ih _ s2

theorem bpDictLoop_aborts {σ ε : Type} (h : σ → BpEvent → Except ε σ)
    (po : σ → Int → BpM σ ε) (d : List Nat) (refB : Nat)
    (hpo : ∀ s id, BpAborts h s (po s id)) :
    ∀ (k : Nat) (ks vs : Int) (s : σ),
      BpAborts h s (bpDictLoop po d refB k ks vs s) := by
  intro k
  induction k with
  | zero => intro ks vs s; exact aborts_pure h s
  | succ k ih =>
      intro ks vs s
      rw [bpDictLoop]
      cases readRef d refB ks with
      | ferr m => exact aborts_ferr h s m
      | panics m => exact aborts_panics h s m
      | ok kref =>
          refine aborts_seq h s _ _ (hpo s kref) fun s2 => ?_
          cases readRef d refB vs with
          | ferr m => exact aborts_ferr h s2 m
          | panics m => exact aborts_panics h s2 m
          | ok vref =>
              exact aborts_seq h s2 _ _ (hpo s2 vref) fun s3 => ih _ _ s3

theorem parseObj_aborts {σ ε : Type} (d : List Nat) (refB : Nat)
    (offsets : List Int) (h : σ → BpEvent → Except ε σ) :
    ∀ (fuel : Nat) (s : σ) (id : Int),
      BpAborts h s (parseObj d refB offsets h fuel s id) := by
  intro fuel
  induction fuel with
  | zero => intro s id; exact aborts_nofuel h s
  | succ fuel ih =>
      intro s id
      rw [parseObj]
      dsimp only
      split
      · exact aborts_panics h s _
      · split
        · exact aborts_panics h s _
        · split
          · split
            · exact aborts_emit h s _
            · exact aborts_emit h s _
            · exact aborts_emit h s _
            · exact aborts_ferr h s _
          · split
            · exact aborts_panics h s _
            · exact aborts_emit h s _
          · split
            · exact aborts_panics h s _
            · exact aborts_emit h s _
          · split
            · split
              · exact aborts_panics h s _
              · exact aborts_emit h s _
            · exact aborts_ferr h s _
          · split
            · exact aborts_ferr h s _
            · exact aborts_panics h s _
            · split
              · exact aborts_panics h s _
              · exact aborts_emit h s _
          · split
            · exact aborts_ferr h s _
            · exact aborts_panics h s _
            · split
              · exact aborts_panics h s _
              · exact aborts_emit h s _
          · split
            · exact aborts_ferr h s _
            · exact aborts_panics h s _
            · exact aborts_seq h s _ _ (aborts_emit h s _) fun s2 =>
                aborts_seq h s2 _ _
                  (bpLoop_aborts h _ d refB (fun s' id' => ih s' id') _ _ s2)
                  fun s3 => aborts_emit h s3 _
          · split
            · exact aborts_ferr h s _
            · exact aborts_panics h s _
            · exact aborts_seq h s _ _ (aborts_emit h s _) fun s2 =>
                aborts_seq h s2 _ _
                  (bpLoop_aborts h _ d refB (fun s' id' => ih s' id') _ _ s2)
                  fun s3 => aborts_emit h s3 _
          · split
            · exact aborts_ferr h s _
            · exact aborts_panics h s _
            · exact aborts_seq h s _ _ (aborts_emit h s _) fun s2 =>
                aborts_seq h s2 _ _
                  (bpDictLoop_aborts h _ d refB (fun s' id' => ih s' id') _ _ _ s2)
                  fun s3 => aborts_emit h s3 _
          · exact aborts_ferr h s _

theorem bplistAfterVersion_aborts {σ ε : Type} (fuel : Nat) (d : List Nat)
    (h : σ → BpEvent → Except ε σ) (offB refB : Nat)
    (numObjects rootObject offsetTableOff : Int) (s1 : σ) :
    BpAborts h s1 (bplistAfterVersion fuel d h offB refB numObjects
      rootObject offsetTableOff s1) := by
  rw [bplistAfterVersion]
  split
  · exact aborts_ferr h s1 _
  · split
    · exact aborts_panics h s1 _
    · split
      · exact aborts_ferr h s1 _
      · exact aborts_panics h s1 _
      · exact parseObj_aborts d _ _ h fuel s1 _

set_option maxRecDepth 4000 in
theorem bplistParse_aborts {σ ε : Type} (fuel : Nat) (d : List Nat)
    (h : σ → BpEvent → Except ε σ) (s0 : σ) :
    BpAborts h s0 (bplistParse fuel d h s0) := by
  rw [bplistParse]
  split
  · exact aborts_ferr h s0 _
  · split
    · exact aborts_ferr h s0 _
    · refine aborts_seq h s0 _ _ (aborts_emit h s0 _) fun s1 => ?_
      generalize byteAt d (d.length - 32 + 6) = A
      generalize byteAt d (d.length - 32 + 7) = B
      generalize wrapInt64 (beU64D d (d.length - 32 + 8)) = C
      generalize wrapInt64 (beU64D d (d.length - 32 + 16)) = E
      generalize wrapInt64 (beU64D d (d.length - 32 + 24)) = F
      exact bplistAfterVersion_aborts fuel d h A B C E F s1

/-- **C10**: if `Parse` returns a handler error `e`, then the delivered
notifications end exactly at the erroring callback — the handler accepted
every earlier notification, the final one returned `e`, nothing was
delivered afterwards, and `Parse` returned exactly `e`. -/
theorem C10_visitor_error_aborts {σ ε : Type} (fuel : Nat) (d : List Nat)
    (h : σ → BpEvent → Except ε σ) (s0 : σ) (evs : List BpEvent) (e : ε)
    (hrun : bplistParse fuel d h s0 = (evs, .herr e)) :
    ∃ front lastev s1, evs = front ++ [lastev] ∧
      runHandler h s0 front = .ok s1 ∧ h s1 lastev = .error e := by
  have ha := bplistParse_aborts fuel d h s0
  rw [hrun] at ha
  exact ha

/-! ### Concrete property lists -/

/-- A minimal property list: `bplist00`, one null object at offset 8, a
one-entry offset table at offset 9, and the 32-byte trailer. -/
def nullBplistBytes : List Nat :=
  [98, 112, 108, 105, 115, 116, 48, 48, 0, 8] ++
  [0, 0, 0, 0, 0, 0, 1, 1] ++ [0, 0, 0, 0, 0, 0, 0, 1] ++
  [0, 0, 0, 0, 0, 0, 0, 0] ++ [0, 0, 0, 0, 0, 0, 0, 9]

/-- The same property list with a UID object (tag `0x80`) as root. -/
def uidBplistBytes : List Nat :=
  [98, 112, 108, 105, 115, 116, 48, 48, 128, 8] ++
  [0, 0, 0, 0, 0, 0, 1, 1] ++ [0, 0, 0, 0, 0, 0, 0, 1] ++
  [0, 0, 0, 0, 0, 0, 0, 0] ++ [0, 0, 0, 0, 0, 0, 0, 9]

/-- The same property list with a Unicode-string object (tag `0x60`). -/
def unicodeBplistBytes : List Nat :=
  [98, 112, 108, 105, 115, 116, 48, 48, 96, 8] ++
  [0, 0, 0, 0, 0, 0, 1, 1] ++ [0, 0, 0, 0, 0, 0, 0, 1] ++
  [0, 0, 0, 0, 0, 0, 0, 0] ++ [0, 0, 0, 0, 0, 0, 0, 9]

/-- A handler accepting every notification. -/
def okHandler : Unit → BpEvent → Except Nat Unit := fun _ _ => .ok ()

/-- A handler that rejects the null notification with error 7. -/
def failNullHandler : Unit → BpEvent → Except Nat Unit := fun _ ev =>
  match ev with
  | .nullEv => .error 7
  | _ => .ok ()

/-- **C10** witness: on the concrete null property list with a handler
that rejects `Null`, the run ends at that callback with its error. -/
theorem C10_visitor_error_aborts_witness :
    ∃ front lastev s1,
      ([BpEvent.version [48, 48], BpEvent.nullEv] : List BpEvent)
        = front ++ [lastev] ∧
      runHandler failNullHandler () front = .ok s1 ∧
      failNullHandler s1 lastev = .error 7 :=
  C10_visitor_error_aborts 2 nullBplistBytes failNullHandler ()
    [BpEvent.version [48, 48], BpEvent.nullEv] 7 (by decide)

/-! ### Claim C5: Unicode-string and UID objects -/

/-- **C5**: the parser does *not* pass Unicode-string (`0x6_`) or UID
(`0x8_`) payloads through to the visitor — both tags fall through the
`switch` (empty `TODO` cases) to the `unrecognized tag` error, and the
`UID` handler callback is never invoked (only the version notification is
delivered). -/
theorem C5_unimplemented_tags_fail :
    bplistParse 2 uidBplistBytes okHandler ()
      = ([BpEvent.version [48, 48]], .ferr "unrecognized tag") ∧
    bplistParse 2 unicodeBplistBytes okHandler ()
      = ([BpEvent.version [48, 48]], .ferr "unrecognized tag") := by
  exact ⟨by decide, by decide⟩

end CookiesVerif
